import Mathlib

/-! # Keyset creation in `cmd/trust/keyset.go`

A shallow embedding of `makeKeydirs`, `generateMosCreds`, `generatebootkit`,
`initkeyset`, `doAddKeyset` and `doListKeysets`.

The Go functions are sequences of calls that act on the file system and on
collaborators that live outside `keyset.go`.  Every function is embedded as a
function from a `World` (file system, trace of the calls made so far, clock
position, standard output) to a result and a new `World`.  The collaborators
(`generaterootCA`, `generateCreds`, `getCA`, `SignCert`,
`generateNewUUIDCreds`, `RunCommandWithOutputErrorRc`, `git.PlainClone`,
`getMosKeyPath`) are fields of an environment `Env`: they are arbitrary
functions of the world they are called in.  The calls of package `os` act on
a small model of the file system and can, in addition, fail with an I/O error
whenever the environment says so.  The order in which Go visits the map of
`generateMosCreds` is a field of the environment as well.

Every call appends an event to the trace of the world, so that statements
about which calls are made, in which order and with which arguments are
statements about lists of events.
-/

namespace Trust

/-! ## Paths -/

/-- An absolute, cleaned path: the list of its components below `/`. -/
abbrev Path := List String

/-- Split the characters of a string at every `/`. -/
def splitSlash : List Char → List (List Char)
  | [] => [[]]
  | c :: cs =>
    match splitSlash cs with
    | [] => [[c]]
    | w :: ws => if c = '/' then [] :: w :: ws else (c :: w) :: ws

/-- One step of `filepath.Clean` on an absolute path: empty and `.` components
are dropped, `..` removes the last component (and is dropped at the root). -/
def cleanStep (p : Path) (c : String) : Path :=
  if c = "" ∨ c = "." then p
  else if c = ".." then p.dropLast
  else p ++ [c]

/-- `filepath.Join(p, s)` for a cleaned absolute `p`: the components of `s` are
appended and the result is cleaned. -/
def filepathJoin (p : Path) (s : String) : Path :=
  ((splitSlash s.data).map String.mk).foldl cleanStep p

/-- The textual form of a path, as handed to an external command. -/
def pathString (p : Path) : String :=
  "/" ++ "/".intercalate p

/-! ## Errors, time, certificate templates -/

/-- Go `error` values. -/
inductive Error
  /-- `errors.New(msg)` and `fmt.Errorf(msg)` -/
  | text (msg : String)
  /-- `errors.Wrapf(cause, msg)` for a non-nil `cause` -/
  | wrapf (cause : Error) (msg : String)
  /-- `fmt.Errorf("Failed reading keys directory %q: %w", path, cause)` -/
  | readFailed (path : Path) (cause : Error)
  /-- A `*PathError` of package `os` -/
  | errno (op : String) (path : Path) (code : String)
  /-- An error returned by a collaborator -/
  | external (code : Nat)
  deriving DecidableEq

/-- A wall-clock reading (the location is not modelled). -/
structure Time where
  year : Nat
  month : Nat
  day : Nat
  hour : Nat
  minute : Nat
  second : Nat
  nsec : Nat
  deriving DecidableEq

/-- Gregorian leap years. -/
def isLeap (y : Nat) : Bool :=
  (y % 4 == 0 && y % 100 != 0) || y % 400 == 0

/-- `t.AddDate(years, 0, 0)`: the year is advanced and the date normalised, so
that 29 February becomes 1 March in a year that is not a leap year. -/
def Time.AddDate (t : Time) (years : Nat) : Time :=
  if t.month = 2 ∧ t.day = 29 ∧ isLeap (t.year + years) = false then
    { t with year := t.year + years, month := 3, day := 1 }
  else
    { t with year := t.year + years }

/-- The zero value of `time.Time`. -/
def Time.zero : Time := ⟨1, 1, 1, 0, 0, 0, 0⟩

/-- `x509.KeyUsageDigitalSignature` -/
def KeyUsageDigitalSignature : Nat := 1

/-- `x509.ExtKeyUsageCodeSigning` -/
def ExtKeyUsageCodeSigning : Nat := 3

/-- The fields of `x509.Certificate` that `initkeyset` sets; a fresh
`var t x509.Certificate` has every field at its zero value. The collaborators
are handed the template through a pointer and are taken to leave these fields
as they find them. -/
structure Certificate where
  Organization : List String := []
  OrganizationalUnit : List String := []
  CommonName : String := ""
  NotBefore : Time := Time.zero
  NotAfter : Time := Time.zero
  IsCA : Bool := false
  BasicConstraintsValid : Bool := false
  KeyUsage : Nat := 0
  ExtKeyUsage : List Nat := []
  deriving DecidableEq

/-- The parsed parent certificate that `getCA` returns. -/
structure CACert where
  id : Nat
  deriving DecidableEq

/-- The parent private key that `getCA` returns. -/
structure PrivKey where
  id : Nat
  deriving DecidableEq

/-! ## The file system -/

/-- A directory or a regular file. -/
structure Node where
  path : Path
  isDir : Bool
  mode : Nat
  data : String
  deriving DecidableEq

/-- The file system is an association list from paths to nodes: the first node
with a given path is the one that is seen. The root `/` is always a directory. -/
abbrev FS := List Node

/-- `os.Stat` -/
def stat (fs : FS) (p : Path) : Option Node :=
  if p = [] then some ⟨[], true, 0o755, ""⟩
  else fs.find? (fun n => decide (n.path = p))

/-- Modelled from the spec: `PathExists` (declared elsewhere in package `main`),
the Registry's presence check of a path. -/
def PathExists (fs : FS) (p : Path) : Bool :=
  (stat fs p).isSome

/-- Is `p` present and a directory? -/
def isDirectory (fs : FS) (p : Path) : Bool :=
  match stat fs p with
  | some n => n.isDir
  | none => false

/-- The permission bits a new node gets: the requested bits without those of
the process umask. -/
def effectiveMode (umask perm : Nat) : Nat :=
  perm &&& (0o777 ^^^ (umask &&& 0o777))

/-- `os.Mkdir` on the file system. -/
def mkdirFS (umask : Nat) (fs : FS) (p : Path) (perm : Nat) : Except Error FS :=
  if PathExists fs p then .error (.errno "mkdir" p "EEXIST")
  else if isDirectory fs p.dropLast then
    .ok (⟨p, true, effectiveMode umask perm, ""⟩ :: fs)
  else .error (.errno "mkdir" p "ENOENT")

/-- `os.MkdirAll` on the file system, given the non-empty prefixes of the path
from the shortest to the longest: a prefix that is a directory is kept, one
that is a file is an error, one that is absent is created. -/
def mkdirAllFS (umask perm : Nat) : List Path → FS → Except Error FS
  | [], fs => .ok fs
  | p :: ps, fs =>
    match stat fs p with
    | some n =>
      if n.isDir then mkdirAllFS umask perm ps fs
      else .error (.errno "mkdir" p "ENOTDIR")
    | none => mkdirAllFS umask perm ps (⟨p, true, effectiveMode umask perm, ""⟩ :: fs)

/-- The non-empty prefixes of a path, shortest first. -/
def parentsAndSelf (p : Path) : List Path :=
  p.inits.tail

/-- `os.RemoveAll` on the file system: the path and everything below it go. -/
def removeAllFS (fs : FS) (p : Path) : FS :=
  fs.filter (fun n => !(p.isPrefixOf n.path))

/-- Does `p` have an entry below it? -/
def hasChild (fs : FS) (p : Path) : Bool :=
  fs.any (fun n => decide (n.path ≠ [] ∧ n.path.dropLast = p))

/-- `os.Remove` on the file system: a file or an empty directory is removed. -/
def removeFS (fs : FS) (p : Path) : Except Error FS :=
  if PathExists fs p = false then .error (.errno "remove" p "ENOENT")
  else if isDirectory fs p && hasChild fs p then .error (.errno "remove" p "ENOTEMPTY")
  else .ok (fs.filter (fun n => decide (n.path ≠ p)))

/-- `os.WriteFile` on the file system: the file is created with the given
permission bits, or truncated and rewritten when it exists. -/
def writeFileFS (umask : Nat) (fs : FS) (p : Path) (data : String) (perm : Nat) :
    Except Error FS :=
  match stat fs p with
  | some n =>
    if n.isDir then .error (.errno "open" p "EISDIR")
    else .ok (⟨p, false, n.mode, data⟩ :: fs.filter (fun m => decide (m.path ≠ p)))
  | none =>
    if isDirectory fs p.dropLast then .ok (⟨p, false, effectiveMode umask perm, data⟩ :: fs)
    else .error (.errno "open" p "ENOENT")

/-- Comparison of file names by their characters. -/
def leChars : List Char → List Char → Bool
  | [], _ => true
  | _ :: _, [] => false
  | a :: as, b :: bs =>
    if a.toNat < b.toNat then true
    else if b.toNat < a.toNat then false
    else leChars as bs

/-- The names of the entries of directory `p`, each once, sorted by file name
as `os.ReadDir` returns them. -/
def entryNames (fs : FS) (p : Path) : List String :=
  ((fs.filterMap (fun n =>
      if n.path ≠ [] ∧ n.path.dropLast = p then n.path.getLast? else none)).dedup).insertionSort
    (fun a b => leChars a.data b.data = true)

/-- `os.ReadDir` on the file system. -/
def readDirFS (fs : FS) (p : Path) : Except Error (List String) :=
  if isDirectory fs p then .ok (entryNames fs p)
  else if PathExists fs p then .error (.errno "open" p "ENOTDIR")
  else .error (.errno "open" p "ENOENT")

/-! ## Calls, events, worlds -/

/-- The calls that leave `keyset.go`. -/
inductive Call
  | MkdirAll (p : Path) (perm : Nat)
  | Mkdir (p : Path) (perm : Nat)
  | RemoveAll (p : Path)
  | Remove (p : Path)
  | WriteFile (p : Path) (data : String) (perm : Nat)
  | ReadDir (p : Path)
  | generaterootCA (destdir : Path) (template : Certificate) (doguid : Bool)
  | generateCreds (destdir : Path) (doguid : Bool) (template : Certificate)
  | getCA (role : String) (keysetName : String) (res : Option (CACert × PrivKey))
  | SignCert (template : Certificate) (CAcert : CACert) (CAprivkey : PrivKey) (destdir : Path)
  | generateNewUUIDCreds (keysetName : String) (destdir : Path)
  | EnsureDir (p : Path)
  | RunCommand (cmd : List String)
  | PlainClone (p : Path) (isBare : Bool) (url : String)
  | Infof (msg : String)
  deriving DecidableEq

/-- A call together with whether it returned without an error. -/
structure Event where
  call : Call
  ok : Bool
  deriving DecidableEq

/-- The state a function of `keyset.go` runs in. -/
structure World where
  /-- the file system -/
  fs : FS
  /-- the calls made so far, oldest first -/
  trace : List Event
  /-- the number of `time.Now()` readings taken so far -/
  clk : Nat
  /-- what has been written to standard output, oldest first -/
  out : List String

/-- Append an event to the trace. -/
def World.record (w : World) (c : Call) (ok : Bool) : World :=
  { w with trace := w.trace ++ [⟨c, ok⟩] }

/-- The entry of the `keyinfo` table of `generateMosCreds`. -/
structure AddCertInfo where
  cn : String
  doguid : Bool
  deriving DecidableEq

/-- Everything outside `keyset.go` that its functions depend on. -/
structure Env where
  /-- the result of `getMosKeyPath()`: an error, or the keyset root as an
  absolute, cleaned path -/
  getMosKeyPath : Except Error Path
  /-- the process umask -/
  umask : Nat
  /-- the successive readings of `time.Now()` -/
  now : Nat → Time
  /-- the value of `uuid.NewString()`, by the number of calls made so far -/
  NewString : Nat → String
  /-- does the call of package `os` made after so many calls fail with an I/O
  error? Such a call leaves the file system as it was. -/
  fault : Nat → Bool
  /-- the order in which `range keyinfo` visits the map -/
  rangeOrder : List (String × AddCertInfo)
  /-- the permission bits `trust.EnsureDir` creates directories with -/
  ensureDirPerm : Nat
  generaterootCA : World → Path → Certificate → Bool → Option Error × FS
  generateCreds : World → Path → Bool → Certificate → Option Error × FS
  getCA : World → String → String → Except Error (CACert × PrivKey)
  SignCert : World → Certificate → CACert → PrivKey → Path → Option Error × FS
  generateNewUUIDCreds : World → String → Path → Option Error × FS
  RunCommandWithOutputErrorRc : World → List String → (String × String × Int) × FS
  PlainClone : World → Path → Bool → String → Option Error × FS

/-! ## Calls of package `os` and of the collaborators -/

/-- `os.MkdirAll(p, perm)` -/
def osMkdirAll (env : Env) (p : Path) (perm : Nat) (w : World) : Option Error × World :=
  if env.fault w.trace.length then
    (some (.errno "mkdir" p "EIO"), w.record (.MkdirAll p perm) false)
  else
    match mkdirAllFS env.umask perm (parentsAndSelf p) w.fs with
    | .ok fs => (none, { w with fs := fs, trace := w.trace ++ [⟨.MkdirAll p perm, true⟩] })
    | .error e => (some e, w.record (.MkdirAll p perm) false)

/-- `os.Mkdir(p, perm)` -/
def osMkdir (env : Env) (p : Path) (perm : Nat) (w : World) : Option Error × World :=
  if env.fault w.trace.length then
    (some (.errno "mkdir" p "EIO"), w.record (.Mkdir p perm) false)
  else
    match mkdirFS env.umask w.fs p perm with
    | .ok fs => (none, { w with fs := fs, trace := w.trace ++ [⟨.Mkdir p perm, true⟩] })
    | .error e => (some e, w.record (.Mkdir p perm) false)

/-- `os.RemoveAll(p)` -/
def osRemoveAll (env : Env) (p : Path) (w : World) : Option Error × World :=
  if env.fault w.trace.length then
    (some (.errno "unlinkat" p "EIO"), w.record (.RemoveAll p) false)
  else
    (none, { w with fs := removeAllFS w.fs p, trace := w.trace ++ [⟨.RemoveAll p, true⟩] })

/-- `os.Remove(p)` -/
def osRemove (env : Env) (p : Path) (w : World) : Option Error × World :=
  if env.fault w.trace.length then
    (some (.errno "remove" p "EIO"), w.record (.Remove p) false)
  else
    match removeFS w.fs p with
    | .ok fs => (none, { w with fs := fs, trace := w.trace ++ [⟨.Remove p, true⟩] })
    | .error e => (some e, w.record (.Remove p) false)

/-- `os.WriteFile(p, data, perm)` -/
def osWriteFile (env : Env) (p : Path) (data : String) (perm : Nat) (w : World) :
    Option Error × World :=
  if env.fault w.trace.length then
    (some (.errno "write" p "EIO"), w.record (.WriteFile p data perm) false)
  else
    match writeFileFS env.umask w.fs p data perm with
    | .ok fs => (none, { w with fs := fs, trace := w.trace ++ [⟨.WriteFile p data perm, true⟩] })
    | .error e => (some e, w.record (.WriteFile p data perm) false)

/-- `os.ReadDir(p)`: the entries read and the error. -/
def osReadDir (env : Env) (p : Path) (w : World) : (List String × Option Error) × World :=
  if env.fault w.trace.length then
    (([], some (.errno "readdirent" p "EIO")), w.record (.ReadDir p) false)
  else
    match readDirFS w.fs p with
    | .ok names => ((names, none), w.record (.ReadDir p) true)
    | .error e => (([], some e), w.record (.ReadDir p) false)

/-- Modelled from the spec: `trust.EnsureDir` (package `pkg/trust`), which
creates the directory `p` and fails when it cannot be created. -/
def EnsureDir (env : Env) (p : Path) (w : World) : Option Error × World :=
  if env.fault w.trace.length then
    (some (.errno "mkdir" p "EIO"), w.record (.EnsureDir p) false)
  else
    match mkdirAllFS env.umask env.ensureDirPerm (parentsAndSelf p) w.fs with
    | .ok fs => (none, { w with fs := fs, trace := w.trace ++ [⟨.EnsureDir p, true⟩] })
    | .error e => (some e, w.record (.EnsureDir p) false)

/-- `time.Now()` -/
def timeNow (env : Env) (w : World) : Time × World :=
  (env.now w.clk, { w with clk := w.clk + 1 })

/-- A call of `generaterootCA(destdir, template, doguid)`. -/
def generaterootCA (env : Env) (destdir : Path) (template : Certificate) (doguid : Bool)
    (w : World) : Option Error × World :=
  let r := env.generaterootCA w destdir template doguid
  (r.1, { w with fs := r.2,
                 trace := w.trace ++ [⟨.generaterootCA destdir template doguid, r.1.isNone⟩] })

/-- A call of `generateCreds(destdir, doguid, template)`. -/
def generateCreds (env : Env) (destdir : Path) (doguid : Bool) (template : Certificate)
    (w : World) : Option Error × World :=
  let r := env.generateCreds w destdir doguid template
  (r.1, { w with fs := r.2,
                 trace := w.trace ++ [⟨.generateCreds destdir doguid template, r.1.isNone⟩] })

/-- A call of `getCA(role, keysetName)`. -/
def getCA (env : Env) (role keysetName : String) (w : World) :
    Except Error (CACert × PrivKey) × World :=
  match env.getCA w role keysetName with
  | .ok ck => (.ok ck, w.record (.getCA role keysetName (some ck)) true)
  | .error e => (.error e, w.record (.getCA role keysetName none) false)

/-- A call of `SignCert(template, CAcert, CAprivkey, destdir)`. -/
def SignCert (env : Env) (template : Certificate) (CAcert : CACert) (CAprivkey : PrivKey)
    (destdir : Path) (w : World) : Option Error × World :=
  let r := env.SignCert w template CAcert CAprivkey destdir
  (r.1, { w with fs := r.2,
                 trace := w.trace ++ [⟨.SignCert template CAcert CAprivkey destdir, r.1.isNone⟩] })

/-- A call of `generateNewUUIDCreds(keysetName, destdir)`. -/
def generateNewUUIDCreds (env : Env) (keysetName : String) (destdir : Path) (w : World) :
    Option Error × World :=
  let r := env.generateNewUUIDCreds w keysetName destdir
  (r.1, { w with fs := r.2,
                 trace := w.trace ++ [⟨.generateNewUUIDCreds keysetName destdir, r.1.isNone⟩] })

/-- A call of `trust.RunCommandWithOutputErrorRc(cmd...)`. -/
def RunCommandWithOutputErrorRc (env : Env) (cmd : List String) (w : World) :
    (String × String × Int) × World :=
  let r := env.RunCommandWithOutputErrorRc w cmd
  (r.1, { w with fs := r.2, trace := w.trace ++ [⟨.RunCommand cmd, decide (r.1.2.2 = 0)⟩] })

/-- A call of `git.PlainClone(p, isBare, &git.CloneOptions\x7bURL: url\x7d)`. -/
def PlainClone (env : Env) (p : Path) (isBare : Bool) (url : String) (w : World) :
    Option Error × World :=
  let r := env.PlainClone w p isBare url
  (r.1, { w with fs := r.2, trace := w.trace ++ [⟨.PlainClone p isBare url, r.1.isNone⟩] })

/-- `log.Infof(msg)` -/
def Infof (msg : String) (w : World) : World :=
  w.record (.Infof msg) true

/-- `fmt.Printf(s)` -/
def Printf (s : String) (w : World) : World :=
  { w with out := w.out ++ [s] }

/-! ## `keyset.go` -/

/-- The `keyinfo` map of `generateMosCreds`, in the order it is written. -/
def keyinfo : List (String × AddCertInfo) :=
  [("tpmpol-admin", ⟨"TPM EAPolicy Admin", false⟩),
   ("tpmpol-luks", ⟨"TPM EAPolicy LUKS", false⟩),
   ("uki-tpm", ⟨"UKI TPM", true⟩),
   ("uki-limited", ⟨"UKI Limited", true⟩),
   ("uki-production", ⟨"UKI Production", true⟩),
   ("uefi-db", ⟨"UEFI DB", true⟩)]

/-- The loop of `generateMosCreds` over the entries of `keyinfo` still to be
visited. The template is shared through a pointer: the common name written in
one iteration stays in it. -/
def generateMosCredsLoop (env : Env) (keysetPath : Path) :
    List (String × AddCertInfo) → Certificate → World → Option Error × Certificate × World
  | [], ctemplate, w => (none, ctemplate, w)
  | (key, CertInfo) :: rest, ctemplate, w =>
    let ctemplate1 := { ctemplate with CommonName := CertInfo.cn }
    match generateCreds env (filepathJoin keysetPath key) CertInfo.doguid ctemplate1 w with
    | (some err, w1) => (some err, ctemplate1, w1)
    | (none, w1) => generateMosCredsLoop env keysetPath rest ctemplate1 w1

/-- `generateMosCreds(keysetPath, ctemplate)`: the error and the template as
the caller finds it afterwards. -/
def generateMosCreds (env : Env) (keysetPath : Path) (ctemplate : Certificate) (w : World) :
    Option Error × Certificate × World :=
  generateMosCredsLoop env keysetPath env.rangeOrder ctemplate w

/-- The `keyDirs` slice of `makeKeydirs`. -/
def keyDirs : List String :=
  ["manifest-ca", "manifest", "sudi-ca", "tpmpol-admin", "tpmpol-luks", "uefi-db",
   "uki-limited", "uki-production", "uki-tpm", "uefi-pk", "uefi-kek"]

/-- The loop of `makeKeydirs` over the directories still to be made. -/
def makeKeydirsLoop (env : Env) (keysetPath : Path) : List String → World → Option Error × World
  | [], w => (none, w)
  | dir :: rest, w =>
    match osMkdir env (filepathJoin keysetPath dir) 0o750 w with
    | (some err, w1) => (some err, w1)
    | (none, w1) => makeKeydirsLoop env keysetPath rest w1

/-- `makeKeydirs(keysetPath)` -/
def makeKeydirs (env : Env) (keysetPath : Path) (w : World) : Option Error × World :=
  match osMkdirAll env keysetPath 0o750 w with
  | (some err, w1) => (some err, w1)
  | (none, w1) => makeKeydirsLoop env keysetPath keyDirs w1

/-- `generatebootkit(keysetName, keysetPath, productName)` -/
def generatebootkit (env : Env) (keysetName : String) (keysetPath : Path) (productName : String)
    (w : World) : Option Error × World :=
  let cmd := ["keysetbootkit.sh", keysetName, pathString keysetPath, productName]
  match RunCommandWithOutputErrorRc env cmd w with
  | ((stdout, stderr, rc), w1) =>
    if rc ≠ 0 then
      (some (.text ("Failed running keysetbootkit.sh:\nstderr: " ++ stderr ++ "\nstdout: "
        ++ stdout ++ "\n")), w1)
    else (none, w1)

/-- What a part of the body of `initkeyset` leaves behind: the value it
returns, if it returns, and the variable `err` the deferred function reads. -/
structure Exit where
  /-- the returned error -/
  ret : Option Error
  /-- the variable `err` -/
  err : Option Error
  deriving DecidableEq

/-- Lines 101 to 132 of `initkeyset`: the CA template, the manifest root CA,
the SUDI root CA and the platform key. -/
def initkeysetRootCAs (env : Env) (keysetName : String) (Org : List String) (keysetPath : Path)
    (w : World) : Exit × World :=
  let caTemplate : Certificate := {}
  let caTemplate := { caTemplate with Organization := Org }
  let caTemplate :=
    { caTemplate with OrganizationalUnit := ["PuzzlesOS Machine Project " ++ keysetName] }
  let caTemplate := { caTemplate with CommonName := "Manifest rootCA" }
  let (t1, w) := timeNow env w
  let caTemplate := { caTemplate with NotBefore := t1 }
  let (t2, w) := timeNow env w
  let caTemplate := { caTemplate with NotAfter := t2.AddDate 25 }
  let caTemplate := { caTemplate with IsCA := true }
  let caTemplate := { caTemplate with BasicConstraintsValid := true }
  match generaterootCA env (filepathJoin keysetPath "manifest-ca") caTemplate false w with
  | (some err, w) => (⟨some err, some err⟩, w)
  | (none, w) =>
    let caTemplate := { caTemplate with CommonName := "SUDI rootCA" }
    let caTemplate := { caTemplate with NotAfter := ⟨2099, 12, 31, 23, 0, 0, 0⟩ }
    match generaterootCA env (filepathJoin keysetPath "sudi-ca") caTemplate false w with
    | (some err, w) => (⟨some err, some err⟩, w)
    | (none, w) =>
      let caTemplate := { caTemplate with CommonName := "UEFI PK" }
      let (t3, w) := timeNow env w
      let caTemplate := { caTemplate with NotAfter := t3.AddDate 50 }
      match generaterootCA env (filepathJoin keysetPath "uefi-pk") caTemplate true w with
      | (some err, w) => (⟨some err, some err⟩, w)
      | (none, w) => (⟨none, none⟩, w)

/-- Lines 134 to 145 of `initkeyset`: the leaf template and `generateMosCreds`.
The template is returned as `generateMosCreds` leaves it. -/
def initkeysetMosCreds (env : Env) (keysetName : String) (Org : List String) (keysetPath : Path)
    (w : World) : Exit × Certificate × World :=
  let certTemplate : Certificate := {}
  let certTemplate := { certTemplate with Organization := Org }
  let certTemplate :=
    { certTemplate with OrganizationalUnit := ["PuzzlesOS Machine Project " ++ keysetName] }
  let (t1, w) := timeNow env w
  let certTemplate := { certTemplate with NotBefore := t1 }
  let (t2, w) := timeNow env w
  let certTemplate := { certTemplate with NotAfter := t2.AddDate 25 }
  let certTemplate := { certTemplate with KeyUsage := KeyUsageDigitalSignature }
  let certTemplate := { certTemplate with ExtKeyUsage := [ExtKeyUsageCodeSigning] }
  match generateMosCreds env keysetPath certTemplate w with
  | (some err, certTemplate, w) => (⟨some err, some err⟩, certTemplate, w)
  | (none, certTemplate, w) => (⟨none, none⟩, certTemplate, w)

/-- Lines 147 to 164 of `initkeyset`: the key-exchange key, signed by the
platform key, and its identifier file. -/
def initkeysetKEK (env : Env) (keysetName : String) (keysetPath : Path)
    (certTemplate : Certificate) (w : World) : Exit × World :=
  match getCA env "uefi-pk" keysetName w with
  | (.error err, w) => (⟨some err, some err⟩, w)
  | (.ok (CAcert, CAprivkey), w) =>
    let certTemplate := { certTemplate with CommonName := "UEFI KEK" }
    let (t, w) := timeNow env w
    let certTemplate := { certTemplate with NotAfter := t.AddDate 50 }
    let certTemplate := { certTemplate with ExtKeyUsage := [] }
    match SignCert env certTemplate CAcert CAprivkey (filepathJoin keysetPath "uefi-kek") w with
    | (some err, w) => (⟨some err, some err⟩, w)
    | (none, w) =>
      let guid := env.NewString w.trace.length
      match osWriteFile env (filepathJoin (filepathJoin keysetPath "uefi-kek") "guid") guid
          0o640 w with
      | (some err, w) => (⟨some err, some err⟩, w)
      | (none, w) => (⟨none, none⟩, w)

/-- Lines 166 to 185 of `initkeyset`: the default project and the bootkit. -/
def initkeysetProject (env : Env) (keysetName : String) (keysetPath : Path) (w : World) :
    Exit × World :=
  let mName := filepathJoin (filepathJoin keysetPath "manifest") "default"
  match EnsureDir env mName w with
  | (some err, w) => (⟨some (.wrapf err "Failed creating default project directory"), some err⟩, w)
  | (none, w) =>
    let sName := filepathJoin mName "sudi"
    match EnsureDir env sName w with
    | (some err, w) => (⟨some (.wrapf err "Failed creating default sudi directory"), some err⟩, w)
    | (none, w) =>
      match generateNewUUIDCreds env keysetName mName w with
      | (some err, w) =>
        (⟨some (.wrapf err "Failed creating default project keyset"), some err⟩, w)
      | (none, w) =>
        match generatebootkit env keysetName keysetPath "default" w with
        | (some err, w) =>
          (⟨some (.wrapf err "Failed to create bootkit artifacts for keyset"), some err⟩, w)
        | (none, w) => (⟨none, none⟩, w)

/-- Lines 96 to 185 of `initkeyset`: everything after the deferred function
has been registered. -/
def initkeysetBody (env : Env) (keysetName : String) (Org : List String) (keysetPath : Path)
    (w : World) : Exit × World :=
  match makeKeydirs env keysetPath w with
  | (some err, w) => (⟨some err, some err⟩, w)
  | (none, w) =>
    match initkeysetRootCAs env keysetName Org keysetPath w with
    | (⟨ret, some err⟩, w) => (⟨ret, some err⟩, w)
    | (⟨_, none⟩, w) =>
      match initkeysetMosCreds env keysetName Org keysetPath w with
      | (⟨ret, some err⟩, _, w) => (⟨ret, some err⟩, w)
      | (⟨_, none⟩, certTemplate, w) =>
        match initkeysetKEK env keysetName keysetPath certTemplate w with
        | (⟨ret, some err⟩, w) => (⟨ret, some err⟩, w)
        | (⟨_, none⟩, w) => initkeysetProject env keysetName keysetPath w

/-- `initkeyset(keysetName, Org)`. The deferred function runs when the body
has returned and removes the keyset directory when `err` is not nil. -/
def initkeyset (env : Env) (keysetName : String) (Org : List String) (w : World) :
    Option Error × World :=
  if keysetName = "" then (some (.text "keyset parameter is missing"), w)
  else
    match env.getMosKeyPath with
    | .error err => (some err, w)
    | .ok moskeysetPath =>
      let keysetPath := filepathJoin moskeysetPath keysetName
      if PathExists w.fs keysetPath then
        (some (.text (keysetName ++ " keyset already exists")), w)
      else
        let w := (osMkdirAll env keysetPath 0o750 w).2
        match initkeysetBody env keysetName Org keysetPath w with
        | (⟨ret, some _⟩, w) => (ret, (osRemoveAll env keysetPath w).2)
        | (⟨ret, none⟩, w) => (ret, w)

/-- `doAddKeyset(ctx)`, with `ctx.Args()` and the slice `ctx.StringSlice("org")`:
`none` is the nil slice, `some l` a slice that is not nil, also when it is
empty, as it is for a declared flag that is not given. `initkeyset` is handed
the slice as it is; it only stores it in the templates, where a nil slice and
an empty one are the same list. -/
def doAddKeyset (env : Env) (args : List String) (Org : Option (List String)) (w : World) :
    Option Error × World :=
  match args with
  | [keysetName] =>
    if keysetName = "" then (some (.text "Please specify keyset name"), w)
    else
      let w :=
        if Org = none then
          Infof "X509-Organization field for new certificates not specified." w
        else w
      match env.getMosKeyPath with
      | .error err => (some err, w)
      | .ok mosKeyPath =>
        let keysetPath := filepathJoin mosKeyPath keysetName
        if PathExists w.fs keysetPath then
          (some (.text (keysetName ++ " keyset already exists")), w)
        else if keysetName = "snakeoil" then
          match PlainClone env keysetPath false "https://github.com/project-machine/keys.git" w with
          | (some err, w) => (some err, (osRemove env keysetPath w).2)
          | (none, w) => (none, w)
        else initkeyset env keysetName (Org.getD []) w
  | _ => (some (.text "A name for the new keyset is required (please see \"--help\")"), w)

/-- `doListKeysets(ctx)`, with `ctx.Args()`. -/
def doListKeysets (env : Env) (args : List String) (w : World) : Option Error × World :=
  if args.length ≠ 0 then
    (some (.text "Wrong number of arguments (please see \"--help\")"), w)
  else
    match env.getMosKeyPath with
    | .error err => (some err, w)
    | .ok moskeysetPath =>
      match osReadDir env moskeysetPath w with
      | ((_, some err), w) => (some (.readFailed moskeysetPath err), w)
      | ((dirs, none), w) => (none, dirs.foldl (fun w keyname => Printf (keyname ++ "\n") w) w)

/-! ## A concrete environment

An environment in which every collaborator succeeds and writes one file into
its destination directory, and a world whose keyset root `/keys` is an empty
directory. They serve as concrete inputs. -/

/-- Write a file as a collaborator does: the file system is left alone when
the file cannot be written. -/
def writeOrFail (w : World) (p : Path) (data : String) : Option Error × FS :=
  match writeFileFS 0o022 w.fs p data 0o600 with
  | .ok fs => (none, fs)
  | .error e => (some e, w.fs)

/-- Keyset root `/keys`, umask `022`, a clock that stands still, no I/O faults,
the map visited in the order it is written. -/
def demoEnv : Env where
  getMosKeyPath := .ok ["keys"]
  umask := 0o022
  now := fun _ => ⟨2024, 1, 1, 0, 0, 0, 0⟩
  NewString := fun _ => "123e4567-e89b-12d3-a456-426614174000"
  fault := fun _ => false
  rangeOrder := keyinfo
  ensureDirPerm := 0o755
  generaterootCA := fun w d _ _ => writeOrFail w (d ++ ["cert.pem"]) "root"
  generateCreds := fun w d _ _ => writeOrFail w (d ++ ["cert.pem"]) "leaf"
  getCA := fun _ _ _ => .ok (⟨1⟩, ⟨2⟩)
  SignCert := fun w _ _ _ d => writeOrFail w (d ++ ["cert.pem"]) "signed"
  generateNewUUIDCreds := fun w _ d => writeOrFail w (d ++ ["cert.pem"]) "project"
  RunCommandWithOutputErrorRc := fun w _ => (("", "", 0), w.fs)
  PlainClone := fun w p _ _ => writeOrFail w p ""

/-- The keyset root `/keys` exists and is empty; nothing has happened yet. -/
def emptyRoot : World := ⟨[⟨["keys"], true, 0o755, ""⟩], [], 0, []⟩

/-! ## Runs of a script

The functions of `keyset.go` make their calls in a fixed order and stop at
the first call that fails. A *script* lists the calls in that order, each as
a function of whether it succeeds; a *run* of a script is what the trace
gains: the events of a number of successful calls, followed by one failed
call unless the script was run to its end. -/

/-- `Run s evs ok`: the events `evs` are a run of the script `s`, to its end
when `ok` is true and up to a failed call otherwise. -/
inductive Run : List (Bool → Event) → List Event → Bool → Prop
  | finished : Run [] [] true
  | failed (f : Bool → Event) (rest : List (Bool → Event)) : Run (f :: rest) [f false] false
  | step (f : Bool → Event) (rest : List (Bool → Event)) (evs : List Event) (ok : Bool) :
      Run rest evs ok → Run (f :: rest) (f true :: evs) ok

/-- One call as an entry of a script. -/
def entry (c : Call) : Bool → Event :=
  fun ok => ⟨c, ok⟩

/-- A part of a function has run from `w` to `w1` along the script `s`. -/
def Ran (s : List (Bool → Event)) (w w1 : World) (ok : Bool) : Prop :=
  ∃ evs, Run s evs ok ∧ w1.trace = w.trace ++ evs ∧ w1.out = w.out

/-! ## The script of `initkeyset` -/

/-- The script of `makeKeydirs`. -/
def makeKeydirsScript (keysetPath : Path) : List (Bool → Event) :=
  entry (.MkdirAll keysetPath 0o750) ::
    keyDirs.map (fun dir => entry (.Mkdir (filepathJoin keysetPath dir) 0o750))

/-- The CA template as `initkeyset` has filled it in, for a given common name
and end of validity, when `time.Now()` has been read `c` times before. -/
def caTemplateAt (env : Env) (keysetName : String) (Org : List String) (c : Nat)
    (cn : String) (notAfter : Time) : Certificate :=
  { Organization := Org
    OrganizationalUnit := ["PuzzlesOS Machine Project " ++ keysetName]
    CommonName := cn
    NotBefore := env.now c
    NotAfter := notAfter
    IsCA := true
    BasicConstraintsValid := true }

/-- The script of lines 101 to 132. -/
def rootCAsScript (env : Env) (keysetName : String) (Org : List String) (keysetPath : Path)
    (c : Nat) : List (Bool → Event) :=
  [entry (.generaterootCA (filepathJoin keysetPath "manifest-ca")
      (caTemplateAt env keysetName Org c "Manifest rootCA" ((env.now (c + 1)).AddDate 25)) false),
   entry (.generaterootCA (filepathJoin keysetPath "sudi-ca")
      (caTemplateAt env keysetName Org c "SUDI rootCA" ⟨2099, 12, 31, 23, 0, 0, 0⟩) false),
   entry (.generaterootCA (filepathJoin keysetPath "uefi-pk")
      (caTemplateAt env keysetName Org c "UEFI PK" ((env.now (c + 2)).AddDate 50)) true)]

/-- The leaf template as `initkeyset` hands it to `generateMosCreds`, when
`time.Now()` has been read `c` times before. -/
def leafTemplateAt (env : Env) (keysetName : String) (Org : List String) (c : Nat) :
    Certificate :=
  { Organization := Org
    OrganizationalUnit := ["PuzzlesOS Machine Project " ++ keysetName]
    NotBefore := env.now c
    NotAfter := (env.now (c + 1)).AddDate 25
    KeyUsage := KeyUsageDigitalSignature
    ExtKeyUsage := [ExtKeyUsageCodeSigning] }

/-- The script of `generateMosCreds` for a template and an order of visit. -/
def mosCredsScript (keysetPath : Path) (ctemplate : Certificate)
    (order : List (String × AddCertInfo)) : List (Bool → Event) :=
  order.map (fun e => entry (.generateCreds (filepathJoin keysetPath e.1) e.2.doguid
    { ctemplate with CommonName := e.2.cn }))

/-- The script entry of `getCA`: the call records what it returned, which is
`ck` when it succeeds. -/
def getCAEntry (role keysetName : String) (ck : CACert × PrivKey) : Bool → Event :=
  fun ok => ⟨.getCA role keysetName (if ok then some ck else none), ok⟩

/-- The script of lines 147 to 164, for the template the signing call gets,
what `getCA` returns and the identifier that is written. -/
def kekScript (keysetName : String) (keysetPath : Path) (template : Certificate)
    (ck : CACert × PrivKey) (guid : String) : List (Bool → Event) :=
  [getCAEntry "uefi-pk" keysetName ck,
   entry (.SignCert template ck.1 ck.2 (filepathJoin keysetPath "uefi-kek")),
   entry (.WriteFile (filepathJoin (filepathJoin keysetPath "uefi-kek") "guid") guid 0o640)]

/-- The script of lines 166 to 185. -/
def projectScript (keysetName : String) (keysetPath : Path) : List (Bool → Event) :=
  [entry (.EnsureDir (filepathJoin (filepathJoin keysetPath "manifest") "default")),
   entry (.EnsureDir
      (filepathJoin (filepathJoin (filepathJoin keysetPath "manifest") "default") "sudi")),
   entry (.generateNewUUIDCreds keysetName
      (filepathJoin (filepathJoin keysetPath "manifest") "default")),
   entry (.RunCommand ["keysetbootkit.sh", keysetName, pathString keysetPath, "default"])]

/-- The template of the key-exchange key: the leaf template with a new common
name, a new end of validity and no extended key usage. -/
def kekTemplateAt (env : Env) (keysetName : String) (Org : List String) (c : Nat) :
    Certificate :=
  { leafTemplateAt env keysetName Org c with
    CommonName := "UEFI KEK"
    NotAfter := (env.now (c + 2)).AddDate 50
    ExtKeyUsage := [] }

/-- The script of lines 96 to 185 of `initkeyset`, when `time.Now()` has been
read `c` times before. -/
def bodyScript (env : Env) (keysetName : String) (Org : List String) (keysetPath : Path)
    (c : Nat) (ck : CACert × PrivKey) (guid : String) : List (Bool → Event) :=
  makeKeydirsScript keysetPath ++
  (rootCAsScript env keysetName Org keysetPath c ++
  (mosCredsScript keysetPath (leafTemplateAt env keysetName Org (c + 3)) env.rangeOrder ++
  (kekScript keysetName keysetPath (kekTemplateAt env keysetName Org (c + 3)) ck guid ++
  projectScript keysetName keysetPath)))

/-- The concrete environment, except that `SignCert` fails. -/
def kekFailEnv : Env :=
  { demoEnv with SignCert := fun w _ _ _ _ => (some (.external 1), w.fs) }

/-- An entry of a script is a call of `SignCert`. -/
def IsSign (f : Bool → Event) : Prop :=
  ∃ b t c k d, (f b).call = .SignCert t c k d

/-- Does the call ask for, or write, the identifier of the role directory
`dir`? `generaterootCA` and `generateCreds` are asked for one through their
`doguid` argument; `initkeyset` writes the file `guid` itself for the
key-exchange key. -/
def requestsIdentifier (dir : Path) (e : Event) : Bool :=
  match e.call with
  | .generaterootCA d _ doguid => doguid && decide (d = dir)
  | .generateCreds d doguid _ => doguid && decide (d = dir)
  | .WriteFile p _ _ => decide (p = filepathJoin dir "guid")
  | _ => false

/-- The concrete environment, except that the map of `generateMosCreds` is
visited in the reverse of the order it is written in. -/
def shuffledEnv : Env :=
  { demoEnv with rangeOrder := keyinfo.reverse }

/-- Every directory of `fs` is a directory of `fs1`. -/
def KeepsDirs (fs fs1 : FS) : Prop :=
  ∀ p, isDirectory fs p = true → isDirectory fs1 p = true

/-- The collaborators that act on the keyset never remove a directory nor
put a file in its place. -/
structure Env.KeepsDirectories (env : Env) : Prop where
  generaterootCA : ∀ w d t g, KeepsDirs w.fs (env.generaterootCA w d t g).2
  generateCreds : ∀ w d g t, KeepsDirs w.fs (env.generateCreds w d g t).2
  SignCert : ∀ w t c k d, KeepsDirs w.fs (env.SignCert w t c k d).2
  generateNewUUIDCreds : ∀ w n d, KeepsDirs w.fs (env.generateNewUUIDCreds w n d).2
  RunCommandWithOutputErrorRc :
    ∀ w cmd, KeepsDirs w.fs (env.RunCommandWithOutputErrorRc w cmd).2

/-- A single path component: not empty, not `.` or `..`, and without `/`. -/
def IsComponent (name : String) : Prop :=
  name ≠ "" ∧ name ≠ "." ∧ name ≠ ".." ∧ '/' ∉ name.data

/-! # Properties -/

/-! ## Listing -/

theorem foldl_Printf_out (names : List String) (w : World) :
    (names.foldl (fun w keyname => Printf (keyname ++ "\n") w) w).out
      = w.out ++ names.map (fun n => n ++ "\n") := by
  induction names generalizing w with
  | nil => simp
  | cons n ns ih =>
    simp only [List.foldl_cons, List.map_cons]
    rw [ih]
    simp [Printf]

theorem osReadDir_out (env : Env) (p : Path) (w : World) :
    (osReadDir env p w).2.out = w.out := by
  simp only [osReadDir]
  split
  · rfl
  · split <;> rfl

theorem osReadDir_of_not_dir (env : Env) (p : Path) (w : World)
    (hd : isDirectory w.fs p = false) : ∃ err, (osReadDir env p w).1 = ([], some err) := by
  simp only [osReadDir]
  by_cases hf : env.fault w.trace.length = true
  · simp [hf]
  · by_cases he : PathExists w.fs p = true <;> simp [hf, readDirFS, hd, he]

/-- C9. `doListKeysets` without arguments prints exactly the names the
directory read of the keyset root returns, each followed by a newline and in
that order; an empty root prints nothing and is no error; a root that cannot be
read (in particular one that is not a directory) is an error and prints
nothing; with any argument it is an error and nothing at all is done. -/
theorem doListKeysets_lists (env : Env) (w : World) (root : Path)
    (hroot : env.getMosKeyPath = .ok root) :
    (∀ names, (osReadDir env root w).1 = (names, none) →
        (doListKeysets env [] w).1 = none ∧
        (doListKeysets env [] w).2.out = w.out ++ names.map (fun n => n ++ "\n")) ∧
    (env.fault w.trace.length = false → isDirectory w.fs root = true →
        (osReadDir env root w).1 = (entryNames w.fs root, none) ∧
        (entryNames w.fs root = [] →
          (doListKeysets env [] w).1 = none ∧ (doListKeysets env [] w).2.out = w.out)) ∧
    (∀ names err, (osReadDir env root w).1 = (names, some err) →
        (doListKeysets env [] w).1 = some (.readFailed root err) ∧
        (doListKeysets env [] w).2.out = w.out) ∧
    (isDirectory w.fs root = false → ∃ err, (osReadDir env root w).1 = ([], some err)) ∧
    (∀ args, args ≠ [] →
        (doListKeysets env args w).1.isSome = true ∧ (doListKeysets env args w).2 = w) := by
  have key : ∀ names, (osReadDir env root w).1 = (names, none) →
        (doListKeysets env [] w).1 = none ∧
        (doListKeysets env [] w).2.out = w.out ++ names.map (fun n => n ++ "\n") := by
    intro names h
    have hout := osReadDir_out env root w
    simp only [doListKeysets, hroot]
    rcases hrd : osReadDir env root w with ⟨⟨ns, e⟩, w1⟩
    rw [hrd] at h hout
    simp only [Prod.mk.injEq] at h
    obtain ⟨rfl, rfl⟩ := h
    simp only at hout
    simp [foldl_Printf_out, hout]
  refine ⟨key, ?_, ?_, osReadDir_of_not_dir env root w, ?_⟩
  · intro hf hd
    have hrd : (osReadDir env root w).1 = (entryNames w.fs root, none) := by
      simp [osReadDir, hf, readDirFS, hd]
    refine ⟨hrd, ?_⟩
    intro hnil
    have := key _ hrd
    simpa [hnil] using this
  · intro names err h
    have hout := osReadDir_out env root w
    simp only [doListKeysets, hroot]
    rcases hrd : osReadDir env root w with ⟨⟨ns, e⟩, w1⟩
    rw [hrd] at h hout
    simp only [Prod.mk.injEq] at h
    obtain ⟨rfl, rfl⟩ := h
    simp only at hout
    simp [hout]
  · intro args hargs
    have : args.length ≠ 0 := by
      simpa using hargs
    simp [doListKeysets, this]

theorem doListKeysets_lists_witness :
    demoEnv.getMosKeyPath = .ok ["keys"] ∧
    (doListKeysets demoEnv [] emptyRoot).1 = none ∧
    (doListKeysets demoEnv [] emptyRoot).2.out = emptyRoot.out :=
  ⟨rfl, ((doListKeysets_lists demoEnv emptyRoot ["keys"] rfl).2.1 rfl (by decide)).2
    (by decide)⟩

/-! ## Runs -/

theorem Run.append {s1 s2 : List (Bool → Event)} {e1 e2 : List Event} {ok : Bool}
    (h1 : Run s1 e1 true) (h2 : Run s2 e2 ok) : Run (s1 ++ s2) (e1 ++ e2) ok := by
  generalize hb : true = b at h1
  induction h1 with
  | finished => simpa using h2
  | failed f rest => cases hb
  | step f rest evs ok1 _ ih => exact Run.step _ _ _ _ (ih hb)

theorem Run.append_failed {s1 : List (Bool → Event)} {e1 : List Event}
    (h1 : Run s1 e1 false) (s2 : List (Bool → Event)) : Run (s1 ++ s2) e1 false := by
  generalize hb : false = b at h1
  induction h1 with
  | finished => cases hb
  | failed f rest => exact Run.failed _ _
  | step f rest evs ok1 _ ih => exact Run.step _ _ _ _ (ih hb)

theorem Run.eq_of_ok {s : List (Bool → Event)} {evs : List Event}
    (h : Run s evs true) : evs = s.map (fun f => f true) := by
  generalize hb : true = b at h
  induction h with
  | finished => rfl
  | failed f rest => cases hb
  | step f rest evs ok1 _ ih =>
    subst hb
    simp [ih rfl]

theorem Run.mem {s : List (Bool → Event)} {evs : List Event} {ok : Bool}
    (h : Run s evs ok) : ∀ e ∈ evs, ∃ f ∈ s, ∃ b, e = f b := by
  induction h with
  | finished => simp
  | failed f rest =>
    intro e he
    simp only [List.mem_singleton] at he
    exact ⟨f, by simp, false, he⟩
  | step f rest evs ok1 _ ih =>
    intro e he
    rcases List.mem_cons.1 he with rfl | he
    · exact ⟨f, by simp, true, rfl⟩
    · obtain ⟨g, hg, b, hb⟩ := ih e he
      exact ⟨g, List.mem_cons_of_mem _ hg, b, hb⟩

theorem Ran.nil (w : World) : Ran [] w w true :=
  ⟨[], Run.finished, by simp, rfl⟩

theorem Ran.seq {s1 s2 : List (Bool → Event)} {w w1 w2 : World} {ok : Bool}
    (h1 : Ran s1 w w1 true) (h2 : Ran s2 w1 w2 ok) : Ran (s1 ++ s2) w w2 ok := by
  obtain ⟨e1, r1, t1, o1⟩ := h1
  obtain ⟨e2, r2, t2, o2⟩ := h2
  exact ⟨e1 ++ e2, r1.append r2, by rw [t2, t1, List.append_assoc], by rw [o2, o1]⟩

theorem Ran.seq_failed {s1 : List (Bool → Event)} {w w1 : World}
    (h1 : Ran s1 w w1 false) (s2 : List (Bool → Event)) : Ran (s1 ++ s2) w w1 false := by
  obtain ⟨e1, r1, t1, o1⟩ := h1
  exact ⟨e1, r1.append_failed s2, t1, o1⟩

theorem Ran.single {c : Call} {w w1 : World} {ok : Bool}
    (ht : w1.trace = w.trace ++ [⟨c, ok⟩]) (ho : w1.out = w.out) : Ran [entry c] w w1 ok := by
  cases ok with
  | true => exact ⟨[⟨c, true⟩], Run.step (entry c) [] [] true Run.finished, ht, ho⟩
  | false => exact ⟨[⟨c, false⟩], Run.failed (entry c) [], ht, ho⟩

/-! ## Single calls -/

theorem osMkdirAll_ran (env : Env) (p : Path) (perm : Nat) (w : World) :
    Ran [entry (.MkdirAll p perm)] w (osMkdirAll env p perm w).2
      (osMkdirAll env p perm w).1.isNone ∧ (osMkdirAll env p perm w).2.clk = w.clk := by
  simp only [osMkdirAll]
  split
  · exact ⟨Ran.single rfl rfl, rfl⟩
  · split
    · exact ⟨Ran.single rfl rfl, rfl⟩
    · exact ⟨Ran.single rfl rfl, rfl⟩

theorem osMkdir_ran (env : Env) (p : Path) (perm : Nat) (w : World) :
    Ran [entry (.Mkdir p perm)] w (osMkdir env p perm w).2
      (osMkdir env p perm w).1.isNone ∧ (osMkdir env p perm w).2.clk = w.clk := by
  simp only [osMkdir]
  split
  · exact ⟨Ran.single rfl rfl, rfl⟩
  · split
    · exact ⟨Ran.single rfl rfl, rfl⟩
    · exact ⟨Ran.single rfl rfl, rfl⟩

theorem osWriteFile_ran (env : Env) (p : Path) (data : String) (perm : Nat) (w : World) :
    Ran [entry (.WriteFile p data perm)] w (osWriteFile env p data perm w).2
      (osWriteFile env p data perm w).1.isNone ∧
    (osWriteFile env p data perm w).2.clk = w.clk := by
  simp only [osWriteFile]
  split
  · exact ⟨Ran.single rfl rfl, rfl⟩
  · split
    · exact ⟨Ran.single rfl rfl, rfl⟩
    · exact ⟨Ran.single rfl rfl, rfl⟩

theorem EnsureDir_ran (env : Env) (p : Path) (w : World) :
    Ran [entry (.EnsureDir p)] w (EnsureDir env p w).2 (EnsureDir env p w).1.isNone ∧
    (EnsureDir env p w).2.clk = w.clk := by
  simp only [EnsureDir]
  split
  · exact ⟨Ran.single rfl rfl, rfl⟩
  · split
    · exact ⟨Ran.single rfl rfl, rfl⟩
    · exact ⟨Ran.single rfl rfl, rfl⟩

theorem generaterootCA_ran (env : Env) (d : Path) (t : Certificate) (g : Bool) (w : World) :
    Ran [entry (.generaterootCA d t g)] w (generaterootCA env d t g w).2
      (generaterootCA env d t g w).1.isNone ∧ (generaterootCA env d t g w).2.clk = w.clk :=
  ⟨Ran.single rfl rfl, rfl⟩

theorem generateCreds_ran (env : Env) (d : Path) (g : Bool) (t : Certificate) (w : World) :
    Ran [entry (.generateCreds d g t)] w (generateCreds env d g t w).2
      (generateCreds env d g t w).1.isNone ∧ (generateCreds env d g t w).2.clk = w.clk :=
  ⟨Ran.single rfl rfl, rfl⟩

theorem SignCert_ran (env : Env) (t : Certificate) (c : CACert) (k : PrivKey) (d : Path)
    (w : World) :
    Ran [entry (.SignCert t c k d)] w (SignCert env t c k d w).2
      (SignCert env t c k d w).1.isNone ∧ (SignCert env t c k d w).2.clk = w.clk :=
  ⟨Ran.single rfl rfl, rfl⟩

theorem generateNewUUIDCreds_ran (env : Env) (n : String) (d : Path) (w : World) :
    Ran [entry (.generateNewUUIDCreds n d)] w (generateNewUUIDCreds env n d w).2
      (generateNewUUIDCreds env n d w).1.isNone ∧
    (generateNewUUIDCreds env n d w).2.clk = w.clk :=
  ⟨Ran.single rfl rfl, rfl⟩

theorem generatebootkit_ran (env : Env) (n : String) (kp : Path) (prod : String) (w : World) :
    Ran [entry (.RunCommand ["keysetbootkit.sh", n, pathString kp, prod])] w
      (generatebootkit env n kp prod w).2 (generatebootkit env n kp prod w).1.isNone ∧
    (generatebootkit env n kp prod w).2.clk = w.clk := by
  simp only [generatebootkit, RunCommandWithOutputErrorRc]
  by_cases h : (env.RunCommandWithOutputErrorRc w
      ["keysetbootkit.sh", n, pathString kp, prod]).1.2.2 = 0
  · rw [if_neg (by simpa using h)]
    exact ⟨Ran.single (by simp [h]) rfl, rfl⟩
  · rw [if_pos (by simpa using h)]
    exact ⟨Ran.single (by simp [h]) rfl, rfl⟩

theorem Ran.single_fn {f : Bool → Event} {w w1 : World} {ok : Bool}
    (ht : w1.trace = w.trace ++ [f ok]) (ho : w1.out = w.out) : Ran [f] w w1 ok := by
  cases ok with
  | true => exact ⟨[f true], Run.step f [] [] true Run.finished, ht, ho⟩
  | false => exact ⟨[f false], Run.failed f [], ht, ho⟩

theorem getCA_ran (env : Env) (role n : String) (w : World) :
    (∀ ck, (getCA env role n w).1 = .ok ck →
      Ran [getCAEntry role n ck] w (getCA env role n w).2 true) ∧
    (∀ e ck, (getCA env role n w).1 = .error e →
      Ran [getCAEntry role n ck] w (getCA env role n w).2 false) ∧
    (getCA env role n w).2.clk = w.clk := by
  simp only [getCA]
  split
  · refine ⟨?_, ?_, rfl⟩
    · intro ck h
      simp only [Except.ok.injEq] at h
      subst h
      exact Ran.single_fn rfl rfl
    · intro e ck h
      simp at h
  · refine ⟨?_, ?_, rfl⟩
    · intro ck h
      simp at h
    · intro e ck h
      exact Ran.single_fn rfl rfl

/-! ## The parts of `initkeyset` -/

theorem Ran.of_eq {s : List (Bool → Event)} {w w0 w1 : World} {ok : Bool}
    (ht : w.trace = w0.trace) (ho : w.out = w0.out) (h : Ran s w w1 ok) : Ran s w0 w1 ok := by
  obtain ⟨evs, r, t, o⟩ := h
  exact ⟨evs, r, by rw [t, ht], by rw [o, ho]⟩

theorem makeKeydirsLoop_ran (env : Env) (kp : Path) (dirs : List String) (w : World) :
    Ran (dirs.map (fun dir => entry (.Mkdir (filepathJoin kp dir) 0o750))) w
      (makeKeydirsLoop env kp dirs w).2 (makeKeydirsLoop env kp dirs w).1.isNone ∧
    (makeKeydirsLoop env kp dirs w).2.clk = w.clk := by
  induction dirs generalizing w with
  | nil => exact ⟨Ran.nil w, rfl⟩
  | cons d rest ih =>
    have h := osMkdir_ran env (filepathJoin kp d) 0o750 w
    simp only [makeKeydirsLoop, List.map_cons]
    rcases hm : osMkdir env (filepathJoin kp d) 0o750 w with ⟨r, w1⟩
    rw [hm] at h
    cases r with
    | some err => exact ⟨Ran.seq_failed h.1 _, h.2⟩
    | none =>
      have h2 := ih w1
      exact ⟨Ran.seq h.1 h2.1, h2.2.trans h.2⟩

theorem makeKeydirs_ran (env : Env) (kp : Path) (w : World) :
    Ran (makeKeydirsScript kp) w (makeKeydirs env kp w).2 (makeKeydirs env kp w).1.isNone ∧
    (makeKeydirs env kp w).2.clk = w.clk := by
  have h := osMkdirAll_ran env kp 0o750 w
  simp only [makeKeydirs, makeKeydirsScript]
  rcases hm : osMkdirAll env kp 0o750 w with ⟨r, w1⟩
  rw [hm] at h
  cases r with
  | some err => exact ⟨Ran.seq_failed h.1 _, h.2⟩
  | none =>
    have h2 := makeKeydirsLoop_ran env kp keyDirs w1
    exact ⟨Ran.seq h.1 h2.1, h2.2.trans h.2⟩

theorem generateMosCredsLoop_ran (env : Env) (kp : Path) (order : List (String × AddCertInfo))
    (t : Certificate) (w : World) :
    Ran (mosCredsScript kp t order) w (generateMosCredsLoop env kp order t w).2.2
      (generateMosCredsLoop env kp order t w).1.isNone ∧
    (generateMosCredsLoop env kp order t w).2.2.clk = w.clk ∧
    ∃ cn, (generateMosCredsLoop env kp order t w).2.1 = { t with CommonName := cn } := by
  induction order generalizing t w with
  | nil => exact ⟨Ran.nil w, rfl, t.CommonName, rfl⟩
  | cons e rest ih =>
    obtain ⟨key, info⟩ := e
    have h := generateCreds_ran env (filepathJoin kp key) info.doguid
      { t with CommonName := info.cn } w
    simp only [generateMosCredsLoop, mosCredsScript, List.map_cons]
    rcases hm : generateCreds env (filepathJoin kp key) info.doguid
      { t with CommonName := info.cn } w with ⟨r, w1⟩
    rw [hm] at h
    cases r with
    | some err => exact ⟨Ran.seq_failed h.1 _, h.2, info.cn, rfl⟩
    | none =>
      obtain ⟨h2, h3, cn, h4⟩ := ih { t with CommonName := info.cn } w1
      exact ⟨Ran.seq h.1 h2, h3.trans h.2, cn, h4⟩

theorem initkeysetRootCAs_ran (env : Env) (name : String) (org : List String) (kp : Path)
    (w : World) :
    Ran (rootCAsScript env name org kp w.clk) w (initkeysetRootCAs env name org kp w).2
      (initkeysetRootCAs env name org kp w).1.err.isNone ∧
    (initkeysetRootCAs env name org kp w).1.ret.isSome
      = (initkeysetRootCAs env name org kp w).1.err.isSome ∧
    ((initkeysetRootCAs env name org kp w).1.err = none →
      (initkeysetRootCAs env name org kp w).2.clk = w.clk + 3) := by
  simp only [initkeysetRootCAs, timeNow, rootCAsScript]
  generalize hw1 : ({ w with clk := w.clk + 1 + 1 } : World) = w1
  have e1 : w1.trace = w.trace := by rw [← hw1]
  have o1 : w1.out = w.out := by rw [← hw1]
  have c1 : w1.clk = w.clk + 2 := by rw [← hw1]
  have h1 := generaterootCA_ran env (filepathJoin kp "manifest-ca")
    (caTemplateAt env name org w.clk "Manifest rootCA" ((env.now (w.clk + 1)).AddDate 25))
    false w1
  simp only [caTemplateAt] at h1 ⊢
  rcases hm1 : generaterootCA env (filepathJoin kp "manifest-ca") _ false w1 with ⟨r1, w2⟩
  rw [hm1] at h1
  cases r1 with
  | some err => exact ⟨Ran.seq_failed (Ran.of_eq e1 o1 h1.1) _, rfl, by simp⟩
  | none =>
    simp only
    have h2 := generaterootCA_ran env (filepathJoin kp "sudi-ca")
      (caTemplateAt env name org w.clk "SUDI rootCA" ⟨2099, 12, 31, 23, 0, 0, 0⟩) false w2
    simp only [caTemplateAt] at h2
    rcases hm2 : generaterootCA env (filepathJoin kp "sudi-ca") _ false w2 with ⟨r2, w3⟩
    rw [hm2] at h2
    cases r2 with
    | some err =>
      exact ⟨Ran.seq (Ran.of_eq e1 o1 h1.1) (Ran.seq_failed h2.1 _), rfl, by simp⟩
    | none =>
      simp only
      generalize hw4 : ({ w3 with clk := w3.clk + 1 } : World) = w4
      have e4 : w4.trace = w3.trace := by rw [← hw4]
      have o4 : w4.out = w3.out := by rw [← hw4]
      have c4 : w4.clk = w.clk + 3 := by rw [← hw4]; simp only; rw [h2.2, h1.2, c1]
      have c3 : w3.clk = w.clk + 2 := by rw [h2.2, h1.2, c1]
      rw [c3]
      have h3 := generaterootCA_ran env (filepathJoin kp "uefi-pk")
        (caTemplateAt env name org w.clk "UEFI PK" ((env.now (w.clk + 2)).AddDate 50)) true w4
      simp only [caTemplateAt] at h3
      rcases hm3 : generaterootCA env (filepathJoin kp "uefi-pk") _ true w4 with ⟨r3, w5⟩
      rw [hm3] at h3
      cases r3 with
      | some err =>
        exact ⟨Ran.seq (Ran.of_eq e1 o1 h1.1)
          (Ran.seq h2.1 (Ran.seq_failed (Ran.of_eq e4 o4 h3.1) _)), rfl, by simp⟩
      | none =>
        refine ⟨Ran.seq (Ran.of_eq e1 o1 h1.1)
          (Ran.seq h2.1 (Ran.of_eq e4 o4 h3.1)), rfl, ?_⟩
        intro _
        simp only
        rw [h3.2, c4]

theorem initkeysetMosCreds_ran (env : Env) (name : String) (org : List String) (kp : Path)
    (w : World) :
    Ran (mosCredsScript kp (leafTemplateAt env name org w.clk) env.rangeOrder) w
      (initkeysetMosCreds env name org kp w).2.2
      (initkeysetMosCreds env name org kp w).1.err.isNone ∧
    (initkeysetMosCreds env name org kp w).1.ret.isSome
      = (initkeysetMosCreds env name org kp w).1.err.isSome ∧
    (initkeysetMosCreds env name org kp w).2.2.clk = w.clk + 2 ∧
    ∃ cn, (initkeysetMosCreds env name org kp w).2.1
      = { leafTemplateAt env name org w.clk with CommonName := cn } := by
  simp only [initkeysetMosCreds, timeNow, generateMosCreds]
  generalize hw1 : ({ w with clk := w.clk + 1 + 1 } : World) = w1
  have e1 : w1.trace = w.trace := by rw [← hw1]
  have o1 : w1.out = w.out := by rw [← hw1]
  have c1 : w1.clk = w.clk + 2 := by rw [← hw1]
  have h := generateMosCredsLoop_ran env kp env.rangeOrder (leafTemplateAt env name org w.clk) w1
  simp only [leafTemplateAt] at h ⊢
  rcases hm : generateMosCredsLoop env kp env.rangeOrder _ w1 with ⟨r, t, w2⟩
  rw [hm] at h
  obtain ⟨h1, h2, cn, h3⟩ := h
  cases r with
  | some err => exact ⟨Ran.of_eq e1 o1 h1, rfl, h2.trans c1, cn, h3⟩
  | none => exact ⟨Ran.of_eq e1 o1 h1, rfl, h2.trans c1, cn, h3⟩

theorem initkeysetKEK_ran (env : Env) (name : String) (kp : Path) (t : Certificate)
    (w : World) :
    ∃ ck guid,
      Ran (kekScript name kp
          { t with CommonName := "UEFI KEK", NotAfter := (env.now w.clk).AddDate 50,
                   ExtKeyUsage := [] } ck guid) w
        (initkeysetKEK env name kp t w).2 (initkeysetKEK env name kp t w).1.err.isNone ∧
      (initkeysetKEK env name kp t w).1.ret.isSome
        = (initkeysetKEK env name kp t w).1.err.isSome := by
  have hg := getCA_ran env "uefi-pk" name w
  simp only [initkeysetKEK, timeNow, kekScript]
  rcases hm : getCA env "uefi-pk" name w with ⟨r, w1⟩
  rw [hm] at hg
  cases r with
  | error err =>
    exact ⟨(⟨0⟩, ⟨0⟩), "", Ran.seq_failed (hg.2.1 err _ rfl) _, rfl⟩
  | ok ck =>
    obtain ⟨c, k⟩ := ck
    simp only
    generalize hw2 : ({ w1 with clk := w1.clk + 1 } : World) = w2
    have e2 : w2.trace = w1.trace := by rw [← hw2]
    have o2 : w2.out = w1.out := by rw [← hw2]
    have hc : w1.clk = w.clk := hg.2.2
    rw [hc]
    have hs := SignCert_ran env
      { t with CommonName := "UEFI KEK", NotAfter := (env.now w.clk).AddDate 50,
               ExtKeyUsage := [] } c k (filepathJoin kp "uefi-kek") w2
    rcases hm2 : SignCert env _ c k (filepathJoin kp "uefi-kek") w2 with ⟨r2, w3⟩
    rw [hm2] at hs
    cases r2 with
    | some err =>
      exact ⟨(c, k), "", Ran.seq (hg.1 (c, k) rfl)
        (Ran.seq_failed (Ran.of_eq e2 o2 hs.1) _), rfl⟩
    | none =>
      simp only
      have hw := osWriteFile_ran env (filepathJoin (filepathJoin kp "uefi-kek") "guid")
        (env.NewString w3.trace.length) 0o640 w3
      rcases hm3 : osWriteFile env (filepathJoin (filepathJoin kp "uefi-kek") "guid")
        (env.NewString w3.trace.length) 0o640 w3 with ⟨r3, w4⟩
      rw [hm3] at hw
      cases r3 with
      | some err =>
        exact ⟨(c, k), env.NewString w3.trace.length, Ran.seq (hg.1 (c, k) rfl)
          (Ran.seq (Ran.of_eq e2 o2 hs.1) hw.1), rfl⟩
      | none =>
        exact ⟨(c, k), env.NewString w3.trace.length, Ran.seq (hg.1 (c, k) rfl)
          (Ran.seq (Ran.of_eq e2 o2 hs.1) hw.1), rfl⟩

theorem initkeysetProject_ran (env : Env) (name : String) (kp : Path) (w : World) :
    Ran (projectScript name kp) w (initkeysetProject env name kp w).2
      (initkeysetProject env name kp w).1.err.isNone ∧
    (initkeysetProject env name kp w).1.ret.isSome
      = (initkeysetProject env name kp w).1.err.isSome := by
  simp only [initkeysetProject, projectScript]
  have h1 := EnsureDir_ran env (filepathJoin (filepathJoin kp "manifest") "default") w
  rcases hm1 : EnsureDir env (filepathJoin (filepathJoin kp "manifest") "default") w
    with ⟨r1, w1⟩
  rw [hm1] at h1
  cases r1 with
  | some err => exact ⟨Ran.seq_failed h1.1 _, rfl⟩
  | none =>
    simp only
    have h2 := EnsureDir_ran env
      (filepathJoin (filepathJoin (filepathJoin kp "manifest") "default") "sudi") w1
    rcases hm2 : EnsureDir env
      (filepathJoin (filepathJoin (filepathJoin kp "manifest") "default") "sudi") w1
      with ⟨r2, w2⟩
    rw [hm2] at h2
    cases r2 with
    | some err => exact ⟨Ran.seq h1.1 (Ran.seq_failed h2.1 _), rfl⟩
    | none =>
      simp only
      have h3 := generateNewUUIDCreds_ran env name
        (filepathJoin (filepathJoin kp "manifest") "default") w2
      rcases hm3 : generateNewUUIDCreds env name
        (filepathJoin (filepathJoin kp "manifest") "default") w2 with ⟨r3, w3⟩
      rw [hm3] at h3
      cases r3 with
      | some err => exact ⟨Ran.seq h1.1 (Ran.seq h2.1 (Ran.seq_failed h3.1 _)), rfl⟩
      | none =>
        simp only
        have h4 := generatebootkit_ran env name kp "default" w3
        rcases hm4 : generatebootkit env name kp "default" w3 with ⟨r4, w4⟩
        rw [hm4] at h4
        cases r4 with
        | some err => exact ⟨Ran.seq h1.1 (Ran.seq h2.1 (Ran.seq h3.1 h4.1)), rfl⟩
        | none => exact ⟨Ran.seq h1.1 (Ran.seq h2.1 (Ran.seq h3.1 h4.1)), rfl⟩

theorem initkeysetBody_ran (env : Env) (name : String) (org : List String) (kp : Path)
    (w : World) :
    ∃ ck guid,
      Ran (bodyScript env name org kp w.clk ck guid) w (initkeysetBody env name org kp w).2
        (initkeysetBody env name org kp w).1.err.isNone ∧
      (initkeysetBody env name org kp w).1.ret.isSome
        = (initkeysetBody env name org kp w).1.err.isSome := by
  simp only [initkeysetBody, bodyScript]
  have h1 := makeKeydirs_ran env kp w
  rcases hm1 : makeKeydirs env kp w with ⟨r1, w1⟩
  rw [hm1] at h1
  cases r1 with
  | some err => exact ⟨(⟨0⟩, ⟨0⟩), "", Ran.seq_failed h1.1 _, rfl⟩
  | none =>
    simp only
    have h2 := initkeysetRootCAs_ran env name org kp w1
    rcases hm2 : initkeysetRootCAs env name org kp w1 with ⟨⟨ret2, err2⟩, w2⟩
    rw [hm2, h1.2] at h2
    cases err2 with
    | some err =>
      exact ⟨(⟨0⟩, ⟨0⟩), "", Ran.seq h1.1 (Ran.seq_failed h2.1 _), h2.2.1⟩
    | none =>
      simp only
      have c2 : w2.clk = w.clk + 3 := h2.2.2 rfl
      have h3 := initkeysetMosCreds_ran env name org kp w2
      rcases hm3 : initkeysetMosCreds env name org kp w2 with ⟨⟨ret3, err3⟩, t3, w3⟩
      rw [hm3, c2] at h3
      obtain ⟨h3a, h3b, h3c, cn, h3d⟩ := h3
      cases err3 with
      | some err =>
        exact ⟨(⟨0⟩, ⟨0⟩), "", Ran.seq h1.1 (Ran.seq h2.1 (Ran.seq_failed h3a _)), h3b⟩
      | none =>
        simp only at h3a h3c h3d ⊢
        obtain ⟨ck, guid, h4a, h4b⟩ := initkeysetKEK_ran env name kp t3 w3
        have ht : ({ t3 with CommonName := "UEFI KEK", NotAfter := (env.now w3.clk).AddDate 50,
                             ExtKeyUsage := [] } : Certificate)
            = kekTemplateAt env name org (w.clk + 3) := by
          rw [h3d, h3c]
          rfl
        rw [ht] at h4a
        rcases hm4 : initkeysetKEK env name kp t3 w3 with ⟨⟨ret4, err4⟩, w4⟩
        rw [hm4] at h4a h4b
        cases err4 with
        | some err =>
          exact ⟨ck, guid, Ran.seq h1.1 (Ran.seq h2.1 (Ran.seq h3a
            (Ran.seq_failed h4a _))), h4b⟩
        | none =>
          simp only
          have h5 := initkeysetProject_ran env name kp w4
          exact ⟨ck, guid, Ran.seq h1.1 (Ran.seq h2.1 (Ran.seq h3a
            (Ran.seq h4a h5.1))), h5.2⟩

/-! ## `initkeyset` as a whole -/

theorem bodyScript_ok (env : Env) (name : String) (org : List String) (kp : Path) (c : Nat)
    (ck : CACert × PrivKey) (guid : String) :
    ∀ f ∈ bodyScript env name org kp c ck guid, ∀ b, (f b).ok = b := by
  intro f hf b
  simp only [bodyScript, makeKeydirsScript, rootCAsScript, mosCredsScript, kekScript,
    projectScript, List.mem_append, List.mem_cons, List.mem_map, List.mem_singleton,
    List.not_mem_nil, or_false] at hf
  rcases hf with (rfl | ⟨d, -, rfl⟩) | (rfl | rfl | rfl) | ⟨e, -, rfl⟩ | (rfl | rfl | rfl) |
    (rfl | rfl | rfl | rfl) <;> rfl

theorem removeAllFS_absent (fs : FS) (p q : Path) (hp : p ≠ []) (hq : p <+: q) :
    PathExists (removeAllFS fs p) q = false := by
  have hq0 : q ≠ [] := by
    rintro rfl
    exact hp (List.prefix_nil.1 hq)
  have hnone : List.find? (fun n => decide (n.path = q))
      (List.filter (fun n => !List.isPrefixOf p n.path) fs) = none := by
    rw [List.find?_eq_none]
    intro n hn
    simp only [List.mem_filter, Bool.not_eq_true'] at hn
    simp only [decide_eq_true_eq]
    rintro rfl
    have h1 : List.isPrefixOf p n.path = true := List.isPrefixOf_iff_prefix.2 hq
    rw [hn.2] at h1
    cases h1
  simp only [PathExists, stat, hq0, if_false, removeAllFS, hnone, Option.isSome_none]

theorem Run.single_eq {f : Bool → Event} {evs : List Event} {ok : Bool}
    (h : Run [f] evs ok) : evs = [f ok] := by
  generalize hs : [f] = s at h
  cases h with
  | finished => cases hs
  | failed g rest =>
    simp only [List.cons.injEq] at hs
    rw [hs.1]
  | step g rest evs1 ok1 h1 =>
    simp only [List.cons.injEq] at hs
    obtain ⟨rfl, rfl⟩ := hs
    cases h1
    rfl

theorem initkeyset_run (env : Env) (name : String) (org : List String) (w : World)
    (root : Path) (hname : name ≠ "") (hroot : env.getMosKeyPath = .ok root)
    (hex : PathExists w.fs (filepathJoin root name) = false) :
    ∃ ck guid okm evs cleanup,
      Run (bodyScript env name org (filepathJoin root name) w.clk ck guid) evs
        (initkeyset env name org w).1.isNone ∧
      (initkeyset env name org w).2.trace
        = w.trace ++ ⟨.MkdirAll (filepathJoin root name) 0o750, okm⟩ :: evs ++ cleanup ∧
      ((initkeyset env name org w).1 = none → cleanup = []) ∧
      ((initkeyset env name org w).1 ≠ none →
        ∃ okr, cleanup = [⟨.RemoveAll (filepathJoin root name), okr⟩] ∧
          (okr = true → ∀ q, filepathJoin root name <+: q →
            PathExists (initkeyset env name org w).2.fs q = false)) := by
  have hkp : filepathJoin root name ≠ [] := by
    intro h
    rw [h] at hex
    simp [PathExists, stat] at hex
  simp only [initkeyset, hname, if_false, hroot, hex, Bool.false_eq_true]
  have h0 := osMkdirAll_ran env (filepathJoin root name) 0o750 w
  rcases hm0 : osMkdirAll env (filepathJoin root name) 0o750 w with ⟨r0, w1⟩
  rw [hm0] at h0
  obtain ⟨⟨ev0, hr0, ht0, ho0⟩, hc0⟩ := h0
  simp only at ht0 ho0 hc0 ⊢
  obtain ⟨ck, guid, ⟨evs, hrun, ht, ho⟩, hret⟩ :=
    initkeysetBody_ran env name org (filepathJoin root name) w1
  rw [hc0] at hrun
  have hev0 : ev0 = [⟨.MkdirAll (filepathJoin root name) 0o750, r0.isNone⟩] :=
    Run.single_eq hr0
  rcases hb : initkeysetBody env name org (filepathJoin root name) w1 with ⟨⟨ret, err⟩, w2⟩
  rw [hb] at hrun ht hret
  simp only at hrun ht hret
  cases err with
  | none =>
    have hretn : ret = none := by
      cases ret with
      | none => rfl
      | some e => simp at hret
    subst hretn
    refine ⟨ck, guid, r0.isNone, evs, [], hrun, ?_, fun _ => rfl, fun h => absurd rfl h⟩
    simp only [List.append_nil]
    rw [ht, ht0, hev0]
    simp
  | some e =>
    have hrets : ret.isNone = false := by
      cases ret with
      | none => simp at hret
      | some e => rfl
    simp only [hrets]
    simp only [Option.isNone_some] at hrun
    refine ⟨ck, guid, r0.isNone, evs,
      [⟨.RemoveAll (filepathJoin root name), !(env.fault w2.trace.length)⟩], hrun, ?_,
      ?_, ?_⟩
    · simp only [osRemoveAll]
      split
      · rename_i hf
        simp only [World.record, hf, Bool.not_true]
        rw [ht, ht0, hev0]
        simp
      · rename_i hf
        simp only [hf, Bool.not_false]
        rw [ht, ht0, hev0]
        simp
    · intro hn
      subst hn
      simp at hrets
    · intro _
      refine ⟨_, rfl, ?_⟩
      intro hokr q hq
      simp only [Bool.not_eq_true'] at hokr
      simp only [osRemoveAll, hokr, Bool.false_eq_true, if_false]
      exact removeAllFS_absent _ _ _ hkp hq

theorem initkeyset_unchanged_or_run (env : Env) (name : String) (org : List String)
    (w : World) :
    (initkeyset env name org w).2 = w ∨
    ∃ root, name ≠ "" ∧ env.getMosKeyPath = .ok root ∧
      PathExists w.fs (filepathJoin root name) = false := by
  by_cases hname : name = ""
  · left
    simp [initkeyset, hname]
  · rcases hroot : env.getMosKeyPath with err | root
    · left
      simp [initkeyset, hname, hroot]
    · by_cases hex : PathExists w.fs (filepathJoin root name) = true
      · left
        simp [initkeyset, hname, hroot, hex]
      · right
        exact ⟨root, hname, rfl, by simpa using hex⟩

/-! ## Rollback, existing keysets, order of trust -/

/-- C1. Rollback: for a non-empty name whose keyset does not exist yet, the
calls `initkeyset` makes after the existence check are the unchecked
`MkdirAll`, then a run of the script of its stages, then the clean-up. When a
call of a stage fails, `initkeyset` returns an error and the clean-up is the
recursive removal of the keyset directory; when that removal succeeds, no path
at or below the keyset directory exists in the file system `initkeyset`
leaves. -/
theorem initkeyset_rollback (env : Env) (name : String) (org : List String) (w : World)
    (root : Path) (hname : name ≠ "") (hroot : env.getMosKeyPath = .ok root)
    (hex : PathExists w.fs (filepathJoin root name) = false) :
    ∃ ck guid okm evs cleanup,
      Run (bodyScript env name org (filepathJoin root name) w.clk ck guid) evs
        (initkeyset env name org w).1.isNone ∧
      (initkeyset env name org w).2.trace
        = w.trace ++ ⟨.MkdirAll (filepathJoin root name) 0o750, okm⟩ :: evs ++ cleanup ∧
      ((∃ e ∈ evs, e.ok = false) →
        (initkeyset env name org w).1 ≠ none ∧
        ∃ okr, cleanup = [⟨.RemoveAll (filepathJoin root name), okr⟩] ∧
          (okr = true → ∀ q, filepathJoin root name <+: q →
            PathExists (initkeyset env name org w).2.fs q = false)) := by
  obtain ⟨ck, guid, okm, evs, cleanup, hrun, htrace, -, hfail⟩ :=
    initkeyset_run env name org w root hname hroot hex
  refine ⟨ck, guid, okm, evs, cleanup, hrun, htrace, ?_⟩
  rintro ⟨e, he, hok⟩
  have hne : (initkeyset env name org w).1 ≠ none := by
    intro hnone
    rw [hnone] at hrun
    have := Run.eq_of_ok hrun
    rw [this] at he
    obtain ⟨f, hf, rfl⟩ := List.mem_map.1 he
    rw [bodyScript_ok env name org _ _ ck guid f hf true] at hok
    cases hok
  exact ⟨hne, hfail hne⟩

theorem initkeyset_rollback_witness :
    "prod" ≠ "" ∧ kekFailEnv.getMosKeyPath = .ok ["keys"] ∧
    PathExists emptyRoot.fs (filepathJoin ["keys"] "prod") = false ∧
    ∃ ck guid okm evs cleanup,
      Run (bodyScript kekFailEnv "prod" ["ACME"] (filepathJoin ["keys"] "prod") emptyRoot.clk
        ck guid) evs (initkeyset kekFailEnv "prod" ["ACME"] emptyRoot).1.isNone ∧
      (initkeyset kekFailEnv "prod" ["ACME"] emptyRoot).2.trace
        = emptyRoot.trace ++
          ⟨.MkdirAll (filepathJoin ["keys"] "prod") 0o750, okm⟩ :: evs ++ cleanup ∧
      ((∃ e ∈ evs, e.ok = false) →
        (initkeyset kekFailEnv "prod" ["ACME"] emptyRoot).1 ≠ none ∧
        ∃ okr, cleanup = [⟨.RemoveAll (filepathJoin ["keys"] "prod"), okr⟩] ∧
          (okr = true → ∀ q, filepathJoin ["keys"] "prod" <+: q →
            PathExists (initkeyset kekFailEnv "prod" ["ACME"] emptyRoot).2.fs q = false)) :=
  ⟨by decide, rfl, by decide,
    initkeyset_rollback kekFailEnv "prod" ["ACME"] emptyRoot ["keys"] (by decide) rfl
      (by decide)⟩

/-- When `SignCert` fails in the concrete environment, `initkeyset` returns its
error, the last call is the removal of `/keys/prod`, and the file system is
again the empty keyset root. -/
theorem initkeyset_rollback_at_kek :
    (initkeyset kekFailEnv "prod" ["ACME"] emptyRoot).1 = some (.external 1) ∧
    (initkeyset kekFailEnv "prod" ["ACME"] emptyRoot).2.trace.getLast?
      = some ⟨.RemoveAll ["keys", "prod"], true⟩ ∧
    (initkeyset kekFailEnv "prod" ["ACME"] emptyRoot).2.fs = emptyRoot.fs := by
  decide

/-- C2. For a non-empty keyset name whose path under the keyset root exists,
`initkeyset` returns the "keyset already exists" error and leaves the world
as it was: the file system is unchanged and no call at all is made, so no
directory is created or removed, no certificate primitive, clone or bootkit
is called and the removal of the rollback does not run. `doAddKeyset` with
that name as its single argument returns the same error and leaves the file
system unchanged; it makes no call either, apart from the log line it writes
before the check when the organization slice is nil. -/
theorem existing_keyset_untouched (env : Env) (name : String) (Org : List String)
    (orgFlag : Option (List String)) (w : World)
    (root : Path) (hname : name ≠ "") (hroot : env.getMosKeyPath = .ok root)
    (hex : PathExists w.fs (filepathJoin root name) = true) :
    initkeyset env name Org w = (some (.text (name ++ " keyset already exists")), w) ∧
    (doAddKeyset env [name] orgFlag w).1 = some (.text (name ++ " keyset already exists")) ∧
    (doAddKeyset env [name] orgFlag w).2
      = (if orgFlag = none then
          Infof "X509-Organization field for new certificates not specified." w
        else w) ∧
    (doAddKeyset env [name] orgFlag w).2.fs = w.fs ∧
    (orgFlag ≠ none → (doAddKeyset env [name] orgFlag w).2 = w) := by
  refine ⟨?_, ?_, ?_, ?_, ?_⟩
  · simp [initkeyset, hname, hroot, hex]
  · by_cases horg : orgFlag = none <;>
      simp [doAddKeyset, hname, hroot, hex, horg, Infof, World.record]
  · by_cases horg : orgFlag = none <;>
      simp [doAddKeyset, hname, hroot, hex, horg, Infof, World.record]
  · by_cases horg : orgFlag = none <;>
      simp [doAddKeyset, hname, hroot, hex, horg, Infof, World.record]
  · intro horg
    simp [doAddKeyset, hname, hroot, hex, horg]

theorem existing_keyset_untouched_witness :
    "prod" ≠ "" ∧ demoEnv.getMosKeyPath = .ok ["keys"] ∧
    PathExists (initkeyset demoEnv "prod" [] emptyRoot).2.fs (filepathJoin ["keys"] "prod")
      = true ∧
    initkeyset demoEnv "prod" ["ACME"] (initkeyset demoEnv "prod" [] emptyRoot).2
      = (some (.text ("prod" ++ " keyset already exists")),
          (initkeyset demoEnv "prod" [] emptyRoot).2) ∧
    (doAddKeyset demoEnv ["prod"] (some []) (initkeyset demoEnv "prod" [] emptyRoot).2).1
      = some (.text ("prod" ++ " keyset already exists")) ∧
    (doAddKeyset demoEnv ["prod"] (some []) (initkeyset demoEnv "prod" [] emptyRoot).2).2
      = (if (some [] : Option (List String)) = none then
          Infof "X509-Organization field for new certificates not specified."
            (initkeyset demoEnv "prod" [] emptyRoot).2
        else (initkeyset demoEnv "prod" [] emptyRoot).2) ∧
    (doAddKeyset demoEnv ["prod"] (some []) (initkeyset demoEnv "prod" [] emptyRoot).2).2.fs
      = (initkeyset demoEnv "prod" [] emptyRoot).2.fs ∧
    ((some [] : Option (List String)) ≠ none →
      (doAddKeyset demoEnv ["prod"] (some []) (initkeyset demoEnv "prod" [] emptyRoot).2).2
        = (initkeyset demoEnv "prod" [] emptyRoot).2) :=
  ⟨by decide, rfl, by decide,
    existing_keyset_untouched demoEnv "prod" ["ACME"] (some [])
      (initkeyset demoEnv "prod" [] emptyRoot).2 ["keys"] (by decide) rfl (by decide)⟩

/-- In the concrete environment, with the keyset `/keys/prod` present and the
organization flag not given, `doAddKeyset` with `prod` returns the error and
the trace and the file system are what they were. -/
theorem existing_keyset_no_calls :
    (doAddKeyset demoEnv ["prod"] (some []) (initkeyset demoEnv "prod" [] emptyRoot).2).1
      = some (.text "prod keyset already exists") ∧
    (doAddKeyset demoEnv ["prod"] (some []) (initkeyset demoEnv "prod" [] emptyRoot).2).2.trace
      = (initkeyset demoEnv "prod" [] emptyRoot).2.trace ∧
    (doAddKeyset demoEnv ["prod"] (some []) (initkeyset demoEnv "prod" [] emptyRoot).2).2.fs
      = (initkeyset demoEnv "prod" [] emptyRoot).2.fs := by
  decide

theorem Run.split_post {s : List (Bool → Event)} {evs : List Event} {ok : Bool}
    (h : Run s evs ok) : ∀ pre e post, evs = pre ++ e :: post →
      ∃ spre f spost b, s = spre ++ f :: spost ∧ pre = spre.map (fun g => g true) ∧
        e = f b ∧ ∀ x ∈ post, ∃ g ∈ spost, ∃ c, x = g c := by
  induction h with
  | finished => intro pre e post h; simp at h
  | failed f rest =>
    intro pre e post h
    cases pre with
    | nil =>
      simp only [List.nil_append, List.cons.injEq] at h
      refine ⟨[], f, rest, false, by simp, by simp, h.1.symm, ?_⟩
      rw [← h.2]
      simp
    | cons a pre => simp at h
  | step f rest evs ok1 hr ih =>
    intro pre e post h
    cases pre with
    | nil =>
      simp only [List.nil_append, List.cons.injEq] at h
      refine ⟨[], f, rest, true, by simp, by simp, h.1.symm, ?_⟩
      rw [← h.2]
      exact hr.mem
    | cons a pre =>
      simp only [List.cons_append, List.cons.injEq] at h
      obtain ⟨spre, g, spost, b, h1, h2, h3, h4⟩ := ih pre e post h.2
      exact ⟨f :: spre, g, spost, b, by simp [h1], by simp [h2, h.1], h3, h4⟩

theorem split_unique {α : Type} (P : α → Prop) {A B spre spost : List α} {x f : α}
    (h : A ++ x :: B = spre ++ f :: spost) (hf : P f) (hA : ∀ a ∈ A, ¬ P a)
    (hB : ∀ b ∈ B, ¬ P b) : spre = A ∧ f = x ∧ spost = B := by
  induction A generalizing spre with
  | nil =>
    cases spre with
    | nil =>
      simp only [List.nil_append, List.cons.injEq] at h
      exact ⟨rfl, h.1.symm, h.2.symm⟩
    | cons a s1 =>
      simp only [List.nil_append, List.cons_append, List.cons.injEq] at h
      exact absurd hf (hB f (by rw [h.2]; simp))
  | cons a A1 ih =>
    cases spre with
    | nil =>
      simp only [List.nil_append, List.cons_append, List.cons.injEq] at h
      exact absurd hf (by rw [← h.1]; exact hA a (by simp))
    | cons a1 s1 =>
      simp only [List.cons_append, List.cons.injEq] at h
      obtain ⟨h1, h2, h3⟩ := ih h.2 (fun y hy => hA y (List.mem_cons_of_mem _ hy))
      exact ⟨by rw [h.1, h1], h2, h3⟩

theorem initkeyset_events_split (env : Env) (name : String) (org : List String) (w : World)
    (pre post : List Event) (e : Event)
    (h : (initkeyset env name org w).2.trace = w.trace ++ pre ++ e :: post)
    (hm : ∀ p m, e.call ≠ .MkdirAll p m) (hr : ∀ p, e.call ≠ .RemoveAll p) :
    ∃ root ck guid okm pre1 post1 cleanup, name ≠ "" ∧ env.getMosKeyPath = .ok root ∧
      pre = ⟨.MkdirAll (filepathJoin root name) 0o750, okm⟩ :: pre1 ∧
      post = post1 ++ cleanup ∧
      (cleanup = [] ∨ ∃ okr, cleanup = [⟨.RemoveAll (filepathJoin root name), okr⟩]) ∧
      Run (bodyScript env name org (filepathJoin root name) w.clk ck guid)
        (pre1 ++ e :: post1) (initkeyset env name org w).1.isNone := by
  rcases initkeyset_unchanged_or_run env name org w with hun | ⟨root, hname, hroot, hex⟩
  · rw [hun] at h
    have := congrArg List.length h
    simp at this
  · obtain ⟨ck, guid, okm, evs, cleanup, hrun, htrace, hc1, hc2⟩ :=
      initkeyset_run env name org w root hname hroot hex
    rw [htrace, List.append_assoc, List.append_assoc] at h
    have h1 := List.append_cancel_left h
    have hcl : cleanup = [] ∨
        ∃ okr, cleanup = [⟨.RemoveAll (filepathJoin root name), okr⟩] := by
      by_cases hn : (initkeyset env name org w).1 = none
      · exact Or.inl (hc1 hn)
      · obtain ⟨okr, h2, -⟩ := hc2 hn
        exact Or.inr ⟨okr, h2⟩
    cases pre with
    | nil =>
      simp only [List.cons_append, List.nil_append, List.cons.injEq] at h1
      exact absurd (congrArg Event.call h1.1).symm (hm _ _)
    | cons a pre1 =>
      simp only [List.cons_append, List.cons.injEq] at h1
      obtain ⟨rfl, h2⟩ := h1
      rcases List.append_eq_append_iff.1 h2 with ⟨a1, h3, h4⟩ | ⟨c1, h3, h4⟩
      · exfalso
        have hmem : e ∈ cleanup := by rw [h4]; simp
        rcases hcl with hcl | ⟨okr, hcl⟩
        · rw [hcl] at hmem
          simp at hmem
        · rw [hcl] at hmem
          simp only [List.mem_singleton] at hmem
          exact hr _ (by rw [hmem])
      · cases c1 with
        | nil =>
          exfalso
          simp only [List.nil_append] at h4
          have hmem : e ∈ cleanup := by rw [← h4]; simp
          rcases hcl with hcl | ⟨okr, hcl⟩
          · rw [hcl] at hmem
            simp at hmem
          · rw [hcl] at hmem
            simp only [List.mem_singleton] at hmem
            exact hr _ (by rw [hmem])
        | cons b c2 =>
          simp only [List.cons_append, List.cons.injEq] at h4
          obtain ⟨rfl, h5⟩ := h4
          refine ⟨root, ck, guid, okm, pre1, c2, cleanup, hname, hroot, rfl, h5, hcl, ?_⟩
          rw [← h3]
          exact hrun

theorem bodyScript_sign (env : Env) (name : String) (org : List String) (kp : Path) (c : Nat)
    (ck : CACert × PrivKey) (guid : String) :
    bodyScript env name org kp c ck guid
      = (makeKeydirsScript kp ++ (rootCAsScript env name org kp c ++
          (mosCredsScript kp (leafTemplateAt env name org (c + 3)) env.rangeOrder ++
            [getCAEntry "uefi-pk" name ck]))) ++
        entry (.SignCert (kekTemplateAt env name org (c + 3)) ck.1 ck.2
          (filepathJoin kp "uefi-kek")) ::
        (entry (.WriteFile (filepathJoin (filepathJoin kp "uefi-kek") "guid") guid 0o640) ::
          projectScript name kp) := by
  simp [bodyScript, kekScript]

theorem not_sign_before (env : Env) (name : String) (org : List String) (kp : Path) (c : Nat)
    (ck : CACert × PrivKey) :
    ∀ f ∈ makeKeydirsScript kp ++ (rootCAsScript env name org kp c ++
          (mosCredsScript kp (leafTemplateAt env name org (c + 3)) env.rangeOrder ++
            [getCAEntry "uefi-pk" name ck])), ¬ IsSign f := by
  intro f hf
  simp only [makeKeydirsScript, rootCAsScript, mosCredsScript,
    List.mem_append, List.mem_cons, List.mem_map, List.mem_singleton,
    List.not_mem_nil, or_false] at hf
  rintro ⟨b, t, c1, k, d, h⟩
  rcases hf with (rfl | ⟨d, -, rfl⟩) | (rfl | rfl | rfl) | ⟨e, -, rfl⟩ | rfl <;>
    simp [entry, getCAEntry] at h

theorem not_sign_after (name : String) (kp : Path) (guid : String) :
    ∀ f ∈ entry (.WriteFile (filepathJoin (filepathJoin kp "uefi-kek") "guid") guid 0o640) ::
          projectScript name kp, ¬ IsSign f := by
  intro f hf
  simp only [projectScript, List.mem_cons, List.mem_singleton, List.not_mem_nil,
    or_false] at hf
  rintro ⟨b, t, c1, k, d, h⟩
  rcases hf with rfl | rfl | rfl | rfl | rfl <;> simp [entry] at h

/-- C3. Trust-dependency order: in every execution of `initkeyset`, a call of
`SignCert` is a call for the directory `uefi-kek` of the keyset; before it the
call of `generaterootCA` for `uefi-pk` has returned without error and
`getCA("uefi-pk", keysetName)` has returned the very certificate and key the
signing call is given; and no other call of that execution is a call of
`SignCert`. -/
theorem signCert_only_kek_after_pk (env : Env) (name : String) (org : List String)
    (w : World) (pre post : List Event) (t : Certificate) (c : CACert) (k : PrivKey)
    (d : Path) (ok : Bool)
    (h : (initkeyset env name org w).2.trace
      = w.trace ++ pre ++ ⟨.SignCert t c k d, ok⟩ :: post) :
    ∃ root, env.getMosKeyPath = .ok root ∧
      d = filepathJoin (filepathJoin root name) "uefi-kek" ∧
      (∃ tpk, ⟨.generaterootCA (filepathJoin (filepathJoin root name) "uefi-pk") tpk true,
          true⟩ ∈ pre) ∧
      ⟨.getCA "uefi-pk" name (some (c, k)), true⟩ ∈ pre ∧
      ∀ e ∈ pre ++ post, ∀ t1 c1 k1 d1, e.call ≠ .SignCert t1 c1 k1 d1 := by
  obtain ⟨root, ck, guid, okm, pre1, post1, cleanup, hname, hroot, hpre, hpost, hcl, hrun⟩ :=
    initkeyset_events_split env name org w pre post _ h (by simp) (by simp)
  obtain ⟨spre, f, spost, b, hs, hp, he, hq⟩ := hrun.split_post _ _ _ rfl
  rw [bodyScript_sign] at hs
  have hf : IsSign f := ⟨b, t, c, k, d, by rw [← he]⟩
  obtain ⟨h1, h2, h3⟩ := split_unique IsSign hs hf (not_sign_before env name org _ _ ck)
    (not_sign_after name _ guid)
  subst h1 h2 h3
  simp only [entry, Event.mk.injEq, Call.SignCert.injEq] at he
  obtain ⟨⟨-, rfl, rfl, rfl⟩, -⟩ := he
  refine ⟨root, hroot, rfl, ?_, ?_, ?_⟩
  · refine ⟨caTemplateAt env name org w.clk "UEFI PK" ((env.now (w.clk + 2)).AddDate 50), ?_⟩
    rw [hpre, hp]
    simp [rootCAsScript, entry]
  · rw [hpre, hp]
    simp [getCAEntry]
  · intro e he t1 c1 k1 d1 hcall
    rw [hpre, hpost, hp] at he
    rcases List.mem_append.1 he with he | he
    · rcases List.mem_cons.1 he with rfl | he
      · simp at hcall
      · obtain ⟨g, hg, rfl⟩ := List.mem_map.1 he
        exact not_sign_before env name org _ _ ck g hg ⟨true, t1, c1, k1, d1, hcall⟩
    rcases List.mem_append.1 he with he | he
    · obtain ⟨g, hg, b1, rfl⟩ := hq e he
      exact not_sign_after name _ guid g hg ⟨b1, t1, c1, k1, d1, hcall⟩
    · rcases hcl with hcl | ⟨okr, hcl⟩
      · rw [hcl] at he
        simp at he
      · rw [hcl] at he
        simp only [List.mem_singleton] at he
        rw [he] at hcall
        simp at hcall

theorem signCert_only_kek_after_pk_witness :
    (initkeyset demoEnv "prod" ["ACME"] emptyRoot).2.trace
      = emptyRoot.trace ++ (initkeyset demoEnv "prod" ["ACME"] emptyRoot).2.trace.take 23 ++
        ⟨.SignCert (kekTemplateAt demoEnv "prod" ["ACME"] 3) ⟨1⟩ ⟨2⟩ ["keys", "prod", "uefi-kek"],
          true⟩ :: (initkeyset demoEnv "prod" ["ACME"] emptyRoot).2.trace.drop 24 ∧
    ∃ root, demoEnv.getMosKeyPath = .ok root ∧
      ["keys", "prod", "uefi-kek"] = filepathJoin (filepathJoin root "prod") "uefi-kek" ∧
      (∃ tpk, ⟨.generaterootCA (filepathJoin (filepathJoin root "prod") "uefi-pk") tpk true,
          true⟩ ∈ (initkeyset demoEnv "prod" ["ACME"] emptyRoot).2.trace.take 23) ∧
      ⟨.getCA "uefi-pk" "prod" (some (⟨1⟩, ⟨2⟩)), true⟩
        ∈ (initkeyset demoEnv "prod" ["ACME"] emptyRoot).2.trace.take 23 ∧
      ∀ e ∈ (initkeyset demoEnv "prod" ["ACME"] emptyRoot).2.trace.take 23 ++
          (initkeyset demoEnv "prod" ["ACME"] emptyRoot).2.trace.drop 24,
        ∀ t1 c1 k1 d1, e.call ≠ .SignCert t1 c1 k1 d1 :=
  ⟨by decide, signCert_only_kek_after_pk demoEnv "prod" ["ACME"] emptyRoot
    ((initkeyset demoEnv "prod" ["ACME"] emptyRoot).2.trace.take 23)
    ((initkeyset demoEnv "prod" ["ACME"] emptyRoot).2.trace.drop 24)
    (kekTemplateAt demoEnv "prod" ["ACME"] 3) ⟨1⟩ ⟨2⟩ ["keys", "prod", "uefi-kek"] true
    (by decide)⟩

theorem initkeyset_new_events (env : Env) (name : String) (org : List String) (w : World) :
    ∃ evs, (initkeyset env name org w).2.trace = w.trace ++ evs ∧
      ∀ e ∈ evs, (∃ p m, e.call = .MkdirAll p m) ∨ (∃ p, e.call = .RemoveAll p) ∨
        ∃ root ck guid f b, env.getMosKeyPath = .ok root ∧
          f ∈ bodyScript env name org (filepathJoin root name) w.clk ck guid ∧ e = f b := by
  rcases initkeyset_unchanged_or_run env name org w with hun | ⟨root, hname, hroot, hex⟩
  · exact ⟨[], by rw [hun]; simp, by simp⟩
  · obtain ⟨ck, guid, okm, evs, cleanup, hrun, htrace, hc1, hc2⟩ :=
      initkeyset_run env name org w root hname hroot hex
    refine ⟨⟨.MkdirAll (filepathJoin root name) 0o750, okm⟩ :: evs ++ cleanup,
      by rw [htrace, List.append_assoc], ?_⟩
    intro e he
    rcases List.mem_append.1 he with he | he
    · rcases List.mem_cons.1 he with rfl | he
      · exact Or.inl ⟨_, _, rfl⟩
      · obtain ⟨f, hf, b, hb⟩ := hrun.mem e he
        exact Or.inr (Or.inr ⟨root, ck, guid, f, b, hroot, hf, hb⟩)
    · by_cases hn : (initkeyset env name org w).1 = none
      · rw [hc1 hn] at he
        simp at he
      · obtain ⟨okr, h2, -⟩ := hc2 hn
        rw [h2] at he
        simp only [List.mem_singleton] at he
        exact Or.inr (Or.inl ⟨_, by rw [he]⟩)

theorem osRemove_trace (env : Env) (p : Path) (w : World) :
    (osRemove env p w).2.trace = w.trace ++ [⟨.Remove p, (osRemove env p w).1.isNone⟩] := by
  simp only [osRemove]
  split
  · rfl
  · split <;> rfl

theorem bodyScript_no_clone (env : Env) (name : String) (org : List String) (kp : Path)
    (c : Nat) (ck : CACert × PrivKey) (guid : String) :
    ∀ f ∈ bodyScript env name org kp c ck guid, ∀ b p x u, (f b).call ≠ .PlainClone p x u := by
  intro f hf b p x u
  simp only [bodyScript, makeKeydirsScript, rootCAsScript, mosCredsScript, kekScript,
    projectScript, List.mem_append, List.mem_cons, List.mem_map, List.mem_singleton,
    List.not_mem_nil, or_false] at hf
  rcases hf with (rfl | ⟨d, -, rfl⟩) | (rfl | rfl | rfl) | ⟨e, -, rfl⟩ | (rfl | rfl | rfl) |
    (rfl | rfl | rfl | rfl) <;> simp [entry, getCAEntry]

/-- C4. Creation strategy: with the single argument `snakeoil`, not yet
present, `doAddKeyset` makes the call of `git.PlainClone` of the fixed URL
into the keyset path and nothing else but a single `os.Remove` of that path
when the clone fails (and, only when the organization slice is nil, the log
line before it), so neither the bootkit command nor any certificate generation
is called; with any other non-empty name not yet present, `doAddKeyset` is
`initkeyset(name, org)` and no call of `git.PlainClone` is made. -/
theorem doAddKeyset_strategy (env : Env) (org : Option (List String)) (w : World)
    (root : Path)
    (hroot : env.getMosKeyPath = .ok root) :
    (PathExists w.fs (filepathJoin root "snakeoil") = false →
      ∃ okc cleanup,
        (doAddKeyset env ["snakeoil"] org w).2.trace
          = (if org = none then
              Infof "X509-Organization field for new certificates not specified." w
            else w).trace ++
            ⟨.PlainClone (filepathJoin root "snakeoil") false
              "https://github.com/project-machine/keys.git", okc⟩ :: cleanup ∧
        (doAddKeyset env ["snakeoil"] org w).1.isNone = okc ∧
        (okc = true → cleanup = []) ∧
        (okc = false → ∃ okr, cleanup = [⟨.Remove (filepathJoin root "snakeoil"), okr⟩])) ∧
    (∀ name, name ≠ "" → name ≠ "snakeoil" →
      PathExists w.fs (filepathJoin root name) = false →
      doAddKeyset env [name] org w
        = initkeyset env name (org.getD [])
            (if org = none then
              Infof "X509-Organization field for new certificates not specified." w
            else w) ∧
      ∃ evs, (doAddKeyset env [name] org w).2.trace = w.trace ++ evs ∧
        ∀ e ∈ evs, ∀ p x u, e.call ≠ .PlainClone p x u) := by
  have hfs : (if org = none then
      Infof "X509-Organization field for new certificates not specified." w else w).fs
        = w.fs := by
    split <;> rfl
  constructor
  · intro hex
    generalize hw1 : (if org = none then
      Infof "X509-Organization field for new certificates not specified." w else w) = w1
      at hfs
    have hex1 : PathExists w1.fs (filepathJoin root "snakeoil") = false := by rw [hfs, hex]
    have hd : doAddKeyset env ["snakeoil"] org w
        = match PlainClone env (filepathJoin root "snakeoil") false
            "https://github.com/project-machine/keys.git" w1 with
          | (some err, w2) => (some err, (osRemove env (filepathJoin root "snakeoil") w2).2)
          | (none, w2) => (none, w2) := by
      simp only [doAddKeyset, hroot, hw1, hex1]
      simp
    rw [hd]
    simp only [PlainClone]
    rcases hc : (env.PlainClone w1 (filepathJoin root "snakeoil") false
      "https://github.com/project-machine/keys.git").1 with _ | err
    · exact ⟨true, [], by simp, rfl, fun _ => rfl, fun h => by cases h⟩
    · simp only [Option.isNone_some]
      rw [osRemove_trace]
      generalize (osRemove env (filepathJoin root "snakeoil") _).1.isNone = okr
      exact ⟨false, [⟨.Remove (filepathJoin root "snakeoil"), okr⟩], by simp, rfl,
        (fun h => by cases h), fun _ => ⟨okr, rfl⟩⟩
  · intro name hname hsnake hex
    generalize hw1 : (if org = none then
      Infof "X509-Organization field for new certificates not specified." w else w) = w1
      at hfs
    have hex1 : PathExists w1.fs (filepathJoin root name) = false := by rw [hfs, hex]
    have hd : doAddKeyset env [name] org w = initkeyset env name (org.getD []) w1 := by
      simp only [doAddKeyset, hname, if_false, hroot, hw1, hex1, hsnake]
      simp
    refine ⟨hd, ?_⟩
    rw [hd]
    obtain ⟨evs, ht, hev⟩ := initkeyset_new_events env name (org.getD []) w1
    have hnc : ∀ e ∈ evs, ∀ p x u, e.call ≠ .PlainClone p x u := by
      intro e he p x u
      rcases hev e he with ⟨p1, m, h1⟩ | ⟨p1, h1⟩ | ⟨r1, ck, guid, f, b, -, hf, rfl⟩
      · rw [h1]; simp
      · rw [h1]; simp
      · exact bodyScript_no_clone env name (org.getD []) _ _ ck guid f hf b p x u
    by_cases horg : org = none
    · refine ⟨⟨.Infof "X509-Organization field for new certificates not specified.", true⟩
        :: evs, ?_, ?_⟩
      · rw [ht, ← hw1, if_pos horg]
        simp [Infof, World.record]
      · intro e he
        rcases List.mem_cons.1 he with rfl | he
        · simp
        · exact hnc e he
    · refine ⟨evs, ?_, hnc⟩
      rw [ht, ← hw1, if_neg horg]

theorem doAddKeyset_strategy_witness :
    demoEnv.getMosKeyPath = .ok ["keys"] ∧
    (∃ okc cleanup,
        (doAddKeyset demoEnv ["snakeoil"] (some []) emptyRoot).2.trace
          = (if (some [] : Option (List String)) = none then
              Infof "X509-Organization field for new certificates not specified." emptyRoot
            else emptyRoot).trace ++
            ⟨.PlainClone (filepathJoin ["keys"] "snakeoil") false
              "https://github.com/project-machine/keys.git", okc⟩ :: cleanup ∧
        (doAddKeyset demoEnv ["snakeoil"] (some []) emptyRoot).1.isNone = okc ∧
        (okc = true → cleanup = []) ∧
        (okc = false → ∃ okr, cleanup = [⟨.Remove (filepathJoin ["keys"] "snakeoil"), okr⟩])) ∧
    (doAddKeyset demoEnv ["prod"] (some []) emptyRoot
        = initkeyset demoEnv "prod" ((some [] : Option (List String)).getD [])
            (if (some [] : Option (List String)) = none then
              Infof "X509-Organization field for new certificates not specified." emptyRoot
            else emptyRoot) ∧
      ∃ evs, (doAddKeyset demoEnv ["prod"] (some []) emptyRoot).2.trace
          = emptyRoot.trace ++ evs ∧
        ∀ e ∈ evs, ∀ p x u, e.call ≠ .PlainClone p x u) :=
  ⟨rfl, (doAddKeyset_strategy demoEnv (some []) emptyRoot ["keys"] rfl).1 (by decide),
    (doAddKeyset_strategy demoEnv (some []) emptyRoot ["keys"] rfl).2 "prod" (by decide)
      (by decide) (by decide)⟩

/-- In the concrete environment `doAddKeyset` with `snakeoil` and the
organization flag not given makes the call of the clone and no other; with a
nil organization slice the log line comes first. -/
theorem doAddKeyset_snakeoil_calls :
    (doAddKeyset demoEnv ["snakeoil"] (some []) emptyRoot).2.trace
      = [⟨.PlainClone ["keys", "snakeoil"] false "https://github.com/project-machine/keys.git",
           true⟩] ∧
    (doAddKeyset demoEnv ["snakeoil"] none emptyRoot).2.trace
      = [⟨.Infof "X509-Organization field for new certificates not specified.", true⟩,
         ⟨.PlainClone ["keys", "snakeoil"] false "https://github.com/project-machine/keys.git",
           true⟩] := by
  decide

theorem filepathJoin_literals (p : Path) :
    filepathJoin p "manifest-ca" = p ++ ["manifest-ca"] ∧
    filepathJoin p "manifest" = p ++ ["manifest"] ∧
    filepathJoin p "sudi-ca" = p ++ ["sudi-ca"] ∧
    filepathJoin p "tpmpol-admin" = p ++ ["tpmpol-admin"] ∧
    filepathJoin p "tpmpol-luks" = p ++ ["tpmpol-luks"] ∧
    filepathJoin p "uefi-db" = p ++ ["uefi-db"] ∧
    filepathJoin p "uki-limited" = p ++ ["uki-limited"] ∧
    filepathJoin p "uki-production" = p ++ ["uki-production"] ∧
    filepathJoin p "uki-tpm" = p ++ ["uki-tpm"] ∧
    filepathJoin p "uefi-pk" = p ++ ["uefi-pk"] ∧
    filepathJoin p "uefi-kek" = p ++ ["uefi-kek"] ∧
    filepathJoin p "guid" = p ++ ["guid"] ∧
    filepathJoin p "default" = p ++ ["default"] ∧
    filepathJoin p "sudi" = p ++ ["sudi"] :=
  ⟨rfl, rfl, rfl, rfl, rfl, rfl, rfl, rfl, rfl, rfl, rfl, rfl, rfl, rfl⟩

theorem initkeyset_success_events (env : Env) (name : String) (org : List String) (w : World)
    (root : Path) (hname : name ≠ "") (hroot : env.getMosKeyPath = .ok root)
    (hex : PathExists w.fs (filepathJoin root name) = false)
    (hok : (initkeyset env name org w).1 = none) :
    ∃ ck guid okm,
      (initkeyset env name org w).2.trace
        = w.trace ++ ⟨.MkdirAll (filepathJoin root name) 0o750, okm⟩ ::
          (bodyScript env name org (filepathJoin root name) w.clk ck guid).map
            (fun f => f true) := by
  obtain ⟨ck, guid, okm, evs, cleanup, hrun, htrace, hc1, -⟩ :=
    initkeyset_run env name org w root hname hroot hex
  rw [hok] at hrun
  refine ⟨ck, guid, okm, ?_⟩
  rw [htrace, hc1 hok, ← Run.eq_of_ok hrun, List.append_nil]

theorem countP_mosCreds (kp : Path) (t : Certificate) (order : List (String × AddCertInfo))
    (hperm : order.Perm keyinfo) (dir : Path) :
    ((mosCredsScript kp t order).map (fun f => f true)).countP (requestsIdentifier dir)
      = ((mosCredsScript kp t keyinfo).map (fun f => f true)).countP
          (requestsIdentifier dir) := by
  simp only [mosCredsScript, List.map_map]
  exact (hperm.map _).countP_eq _

theorem initkeyset_ok_inv (env : Env) (name : String) (org : List String) (w : World)
    (root : Path) (hroot : env.getMosKeyPath = .ok root)
    (hok : (initkeyset env name org w).1 = none) :
    name ≠ "" ∧ PathExists w.fs (filepathJoin root name) = false := by
  by_cases hname : name = ""
  · simp [initkeyset, hname] at hok
  · by_cases hex : PathExists w.fs (filepathJoin root name) = true
    · simp [initkeyset, hname, hroot, hex] at hok
    · exact ⟨hname, by simpa using hex⟩

/-- C5. After a successful `initkeyset`, with the map of `generateMosCreds`
visited in any order, the calls made ask for or write the identifier of the
directory of each of `uefi-pk`, `uefi-kek`, `uki-tpm`, `uki-limited`,
`uki-production` and `uefi-db` exactly once, and never that of `manifest-ca`,
`sudi-ca`, `tpmpol-admin` or `tpmpol-luks`. -/
theorem identifier_iff_flagged (env : Env) (name : String) (org : List String) (w : World)
    (root : Path) (hroot : env.getMosKeyPath = .ok root)
    (hperm : env.rangeOrder.Perm keyinfo)
    (hok : (initkeyset env name org w).1 = none) :
    ∃ evs, (initkeyset env name org w).2.trace = w.trace ++ evs ∧
      (∀ role ∈ ["uefi-pk", "uefi-kek", "uki-tpm", "uki-limited", "uki-production", "uefi-db"],
        evs.countP (requestsIdentifier (filepathJoin (filepathJoin root name) role)) = 1) ∧
      (∀ role ∈ ["manifest-ca", "sudi-ca", "tpmpol-admin", "tpmpol-luks"],
        evs.countP (requestsIdentifier (filepathJoin (filepathJoin root name) role)) = 0) := by
  obtain ⟨hname, hex⟩ := initkeyset_ok_inv env name org w root hroot hok
  obtain ⟨ck, guid, okm, htrace⟩ :=
    initkeyset_success_events env name org w root hname hroot hex hok
  refine ⟨_, htrace, ?_, ?_⟩
  · intro role hrole
    simp only [bodyScript, List.map_append, List.countP_cons, List.countP_append,
      countP_mosCreds _ _ _ hperm]
    simp only [List.mem_cons, List.mem_singleton, List.not_mem_nil, or_false] at hrole
    rcases hrole with rfl | rfl | rfl | rfl | rfl | rfl <;>
      simp [makeKeydirsScript, rootCAsScript, mosCredsScript, kekScript, projectScript,
        keyinfo, keyDirs, entry, getCAEntry, requestsIdentifier, filepathJoin_literals]
  · intro role hrole
    simp only [bodyScript, List.map_append, List.countP_cons, List.countP_append,
      countP_mosCreds _ _ _ hperm]
    simp only [List.mem_cons, List.mem_singleton, List.not_mem_nil, or_false] at hrole
    rcases hrole with rfl | rfl | rfl | rfl <;>
      simp [makeKeydirsScript, rootCAsScript, mosCredsScript, kekScript, projectScript,
        keyinfo, keyDirs, entry, getCAEntry, requestsIdentifier, filepathJoin_literals]

theorem identifier_iff_flagged_witness :
    shuffledEnv.getMosKeyPath = .ok ["keys"] ∧
    shuffledEnv.rangeOrder.Perm keyinfo ∧
    (initkeyset shuffledEnv "prod" ["ACME"] emptyRoot).1 = none ∧
    ∃ evs, (initkeyset shuffledEnv "prod" ["ACME"] emptyRoot).2.trace = emptyRoot.trace ++ evs ∧
      (∀ role ∈ ["uefi-pk", "uefi-kek", "uki-tpm", "uki-limited", "uki-production", "uefi-db"],
        evs.countP (requestsIdentifier (filepathJoin (filepathJoin ["keys"] "prod") role)) = 1) ∧
      (∀ role ∈ ["manifest-ca", "sudi-ca", "tpmpol-admin", "tpmpol-luks"],
        evs.countP (requestsIdentifier (filepathJoin (filepathJoin ["keys"] "prod") role))
          = 0) :=
  ⟨rfl, List.reverse_perm keyinfo, by decide,
    identifier_iff_flagged shuffledEnv "prod" ["ACME"] emptyRoot ["keys"] rfl
      (List.reverse_perm keyinfo) (by decide)⟩

/-! ## `generateMosCreds` -/

theorem generateMosCredsLoop_err (env : Env) (kp : Path)
    (order : List (String × AddCertInfo)) (t : Certificate) (w : World) (err : Error)
    (h : (generateMosCredsLoop env kp order t w).1 = some err) :
    ∃ done entry rest w1, order = done ++ entry :: rest ∧
      w1.trace = w.trace ++ (mosCredsScript kp t done).map (fun f => f true) ∧
      (env.generateCreds w1 (filepathJoin kp entry.1) entry.2.doguid
        { t with CommonName := entry.2.cn }).1 = some err ∧
      (generateMosCredsLoop env kp order t w).2.2.trace
        = w1.trace ++ [⟨.generateCreds (filepathJoin kp entry.1) entry.2.doguid
            { t with CommonName := entry.2.cn }, false⟩] := by
  induction order generalizing t w with
  | nil => simp [generateMosCredsLoop] at h
  | cons e rest ih =>
    obtain ⟨key, info⟩ := e
    simp only [generateMosCredsLoop] at h ⊢
    rcases hg : generateCreds env (filepathJoin kp key) info.doguid
      { t with CommonName := info.cn } w with ⟨r, w1⟩
    rw [hg] at h
    have hg1 := congrArg (fun x => (x.1, x.2.trace)) hg
    simp only [generateCreds, Prod.mk.injEq] at hg1
    cases r with
    | some e1 =>
      simp only [Option.some.injEq] at h
      subst h
      refine ⟨[], (key, info), rest, w, by simp, by simp [mosCredsScript], hg1.1, ?_⟩
      simp only
      rw [← hg1.2, hg1.1]
      rfl
    | none =>
      simp only at h ⊢
      obtain ⟨done, entry1, rest1, w2, h1, h2, h3, h4⟩ := ih _ _ h
      refine ⟨(key, info) :: done, entry1, rest1, w2, by simp [h1], ?_, h3, h4⟩
      rw [h2, ← hg1.2, hg1.1]
      simp [mosCredsScript, entry]

/-- C10. `generateMosCreds` does not depend on the order in which the map is
visited: for every order that visits each entry of `keyinfo` once, when no
call fails the calls made are, up to their order, the six calls of
`generateCreds`, one for each leaf role, each with the directory of the role
under the keyset path, the identifier flag of the role and the template
carrying the common name of the role; when a call fails, the roles visited
before it were generated, its error is what `generateMosCreds` returns, and
no role after it is visited. -/
theorem generateMosCreds_any_order (env : Env) (kp : Path) (t : Certificate) (w : World)
    (hperm : env.rangeOrder.Perm keyinfo) :
    ((generateMosCreds env kp t w).1 = none →
      ∃ evs, (generateMosCreds env kp t w).2.2.trace = w.trace ++ evs ∧
        evs.Perm
          [⟨.generateCreds (filepathJoin kp "tpmpol-admin") false
              { t with CommonName := "TPM EAPolicy Admin" }, true⟩,
           ⟨.generateCreds (filepathJoin kp "tpmpol-luks") false
              { t with CommonName := "TPM EAPolicy LUKS" }, true⟩,
           ⟨.generateCreds (filepathJoin kp "uki-tpm") true
              { t with CommonName := "UKI TPM" }, true⟩,
           ⟨.generateCreds (filepathJoin kp "uki-limited") true
              { t with CommonName := "UKI Limited" }, true⟩,
           ⟨.generateCreds (filepathJoin kp "uki-production") true
              { t with CommonName := "UKI Production" }, true⟩,
           ⟨.generateCreds (filepathJoin kp "uefi-db") true
              { t with CommonName := "UEFI DB" }, true⟩]) ∧
    (∀ err, (generateMosCreds env kp t w).1 = some err →
      ∃ done entry rest w1, env.rangeOrder = done ++ entry :: rest ∧
        w1.trace = w.trace ++ (mosCredsScript kp t done).map (fun f => f true) ∧
        (env.generateCreds w1 (filepathJoin kp entry.1) entry.2.doguid
          { t with CommonName := entry.2.cn }).1 = some err ∧
        (generateMosCreds env kp t w).2.2.trace
          = w1.trace ++ [⟨.generateCreds (filepathJoin kp entry.1) entry.2.doguid
              { t with CommonName := entry.2.cn }, false⟩]) := by
  constructor
  · intro hnone
    obtain ⟨⟨evs, hrun, htrace, -⟩, -, -⟩ :=
      generateMosCredsLoop_ran env kp env.rangeOrder t w
    simp only [generateMosCreds] at hnone ⊢
    rw [hnone] at hrun
    refine ⟨evs, htrace, ?_⟩
    rw [Run.eq_of_ok hrun]
    have := (hperm.map (fun e : String × AddCertInfo =>
      entry (.generateCreds (filepathJoin kp e.1) e.2.doguid
        { t with CommonName := e.2.cn }))).map (fun f => f true)
    simpa [mosCredsScript, keyinfo, entry] using this
  · intro err herr
    exact generateMosCredsLoop_err env kp env.rangeOrder t w err herr

theorem generateMosCreds_any_order_witness :
    shuffledEnv.rangeOrder.Perm keyinfo ∧
    (generateMosCreds shuffledEnv ["keys", "prod"] {}
        (makeKeydirs shuffledEnv ["keys", "prod"] emptyRoot).2).1 = none ∧
    ∃ evs, (generateMosCreds shuffledEnv ["keys", "prod"] {}
        (makeKeydirs shuffledEnv ["keys", "prod"] emptyRoot).2).2.2.trace
          = (makeKeydirs shuffledEnv ["keys", "prod"] emptyRoot).2.trace ++ evs ∧
        evs.Perm
          [⟨.generateCreds (filepathJoin ["keys", "prod"] "tpmpol-admin") false
              { ({} : Certificate) with CommonName := "TPM EAPolicy Admin" }, true⟩,
           ⟨.generateCreds (filepathJoin ["keys", "prod"] "tpmpol-luks") false
              { ({} : Certificate) with CommonName := "TPM EAPolicy LUKS" }, true⟩,
           ⟨.generateCreds (filepathJoin ["keys", "prod"] "uki-tpm") true
              { ({} : Certificate) with CommonName := "UKI TPM" }, true⟩,
           ⟨.generateCreds (filepathJoin ["keys", "prod"] "uki-limited") true
              { ({} : Certificate) with CommonName := "UKI Limited" }, true⟩,
           ⟨.generateCreds (filepathJoin ["keys", "prod"] "uki-production") true
              { ({} : Certificate) with CommonName := "UKI Production" }, true⟩,
           ⟨.generateCreds (filepathJoin ["keys", "prod"] "uefi-db") true
              { ({} : Certificate) with CommonName := "UEFI DB" }, true⟩] :=
  ⟨List.reverse_perm keyinfo, by decide,
    (generateMosCreds_any_order shuffledEnv ["keys", "prod"] {}
      (makeKeydirs shuffledEnv ["keys", "prod"] emptyRoot).2
      (List.reverse_perm keyinfo)).1 (by decide)⟩

/-! ## The template of the key-exchange key -/

theorem bodyScript_templates (env : Env) (name : String) (org : List String) (kp : Path)
    (cl : Nat) (ck : CACert × PrivKey) (guid : String) :
    ∀ f ∈ bodyScript env name org kp cl ck guid, ∀ b,
      (∀ tk c k d, (f b).call = .SignCert tk c k d → tk = kekTemplateAt env name org (cl + 3)) ∧
      (∀ d g tl, (f b).call = .generateCreds d g tl →
        ∃ cn, tl = { leafTemplateAt env name org (cl + 3) with CommonName := cn }) := by
  intro f hf b
  simp only [bodyScript, makeKeydirsScript, rootCAsScript, mosCredsScript, kekScript,
    projectScript, List.mem_append, List.mem_cons, List.mem_map, List.mem_singleton,
    List.not_mem_nil, or_false] at hf
  rcases hf with (rfl | ⟨d, -, rfl⟩) | (rfl | rfl | rfl) | ⟨e, -, rfl⟩ | (rfl | rfl | rfl) |
    (rfl | rfl | rfl | rfl)
  all_goals
    constructor
    · intro tk c k d h
      first
        | (simp [entry, getCAEntry] at h; done)
        | (simp only [entry, Call.SignCert.injEq] at h
           exact h.1.symm)
    · intro d g tl h
      first
        | (simp [entry, getCAEntry] at h; done)
        | (simp only [entry, Call.generateCreds.injEq] at h
           exact ⟨_, h.2.2.symm⟩)

/-- C8, as the code has it. In every execution of `initkeyset` the template
handed to `SignCert` is the leaf template of that execution (organization,
organizational unit `PuzzlesOS Machine Project <name>`, start of validity,
digital-signature key usage, all as in every call of `generateCreds`) with
three fields changed: the common name is `UEFI KEK`, the end of validity is
50 years after a new reading of the clock instead of 25 years, and there is
no extended key usage. -/
theorem kek_template_from_leaf (env : Env) (name : String) (org : List String) (w : World) :
    ∃ evs, (initkeyset env name org w).2.trace = w.trace ++ evs ∧
      (∀ tk c k d ok, ⟨.SignCert tk c k d, ok⟩ ∈ evs →
        tk = { Organization := org
               OrganizationalUnit := ["PuzzlesOS Machine Project " ++ name]
               CommonName := "UEFI KEK"
               NotBefore := env.now (w.clk + 3)
               NotAfter := (env.now (w.clk + 5)).AddDate 50
               KeyUsage := KeyUsageDigitalSignature
               ExtKeyUsage := [] }) ∧
      (∀ d g tl ok, ⟨.generateCreds d g tl, ok⟩ ∈ evs →
        tl.Organization = org ∧
        tl.OrganizationalUnit = ["PuzzlesOS Machine Project " ++ name] ∧
        tl.NotBefore = env.now (w.clk + 3) ∧
        tl.NotAfter = (env.now (w.clk + 4)).AddDate 25 ∧
        tl.KeyUsage = KeyUsageDigitalSignature ∧
        tl.ExtKeyUsage = [ExtKeyUsageCodeSigning] ∧
        ∀ tk c k d2 ok2, ⟨.SignCert tk c k d2, ok2⟩ ∈ evs →
          tk = { tl with CommonName := "UEFI KEK"
                         NotAfter := (env.now (w.clk + 5)).AddDate 50
                         ExtKeyUsage := [] }) := by
  obtain ⟨evs, htrace, hev⟩ := initkeyset_new_events env name org w
  have hk : ∀ tk c k d ok, ⟨.SignCert tk c k d, ok⟩ ∈ evs →
      tk = kekTemplateAt env name org (w.clk + 3) := by
    intro tk c k d ok he
    rcases hev _ he with ⟨p, m, h⟩ | ⟨p, h⟩ | ⟨r, ck, guid, f, b, -, hf, hfb⟩
    · simp at h
    · simp at h
    · exact (bodyScript_templates env name org _ _ ck guid f hf b).1 tk c k d
        (by rw [← hfb])
  have hl : ∀ d g tl ok, ⟨.generateCreds d g tl, ok⟩ ∈ evs →
      ∃ cn, tl = { leafTemplateAt env name org (w.clk + 3) with CommonName := cn } := by
    intro d g tl ok he
    rcases hev _ he with ⟨p, m, h⟩ | ⟨p, h⟩ | ⟨r, ck, guid, f, b, -, hf, hfb⟩
    · simp at h
    · simp at h
    · exact (bodyScript_templates env name org _ _ ck guid f hf b).2 d g tl
        (by rw [← hfb])
  refine ⟨evs, htrace, ?_, ?_⟩
  · intro tk c k d ok he
    rw [hk tk c k d ok he]
    simp [kekTemplateAt, leafTemplateAt, Nat.add_assoc]
  · intro d g tl ok he
    obtain ⟨cn, rfl⟩ := hl d g tl ok he
    refine ⟨rfl, rfl, rfl, ?_, rfl, rfl, ?_⟩
    · simp [leafTemplateAt, Nat.add_assoc]
    · intro tk c k d2 ok2 he2
      rw [hk tk c k d2 ok2 he2]
      simp [kekTemplateAt, leafTemplateAt, Nat.add_assoc]

/-- C8 as stated fails: in the concrete environment, whose clock stands at
1 January 2024, the leaf template handed to `generateCreds` ends its validity
in 2049 and the template handed to `SignCert` in 2074. -/
theorem kek_validity_differs :
    (⟨.generateCreds ["keys", "prod", "uefi-db"] true
        { Organization := ["ACME"]
          OrganizationalUnit := ["PuzzlesOS Machine Project prod"]
          CommonName := "UEFI DB"
          NotBefore := ⟨2024, 1, 1, 0, 0, 0, 0⟩
          NotAfter := ⟨2049, 1, 1, 0, 0, 0, 0⟩
          KeyUsage := KeyUsageDigitalSignature
          ExtKeyUsage := [ExtKeyUsageCodeSigning] }, true⟩ : Event)
      ∈ (initkeyset demoEnv "prod" ["ACME"] emptyRoot).2.trace ∧
    (⟨.SignCert
        { Organization := ["ACME"]
          OrganizationalUnit := ["PuzzlesOS Machine Project prod"]
          CommonName := "UEFI KEK"
          NotBefore := ⟨2024, 1, 1, 0, 0, 0, 0⟩
          NotAfter := ⟨2074, 1, 1, 0, 0, 0, 0⟩
          KeyUsage := KeyUsageDigitalSignature
          ExtKeyUsage := [] } ⟨1⟩ ⟨2⟩ ["keys", "prod", "uefi-kek"], true⟩ : Event)
      ∈ (initkeyset demoEnv "prod" ["ACME"] emptyRoot).2.trace ∧
    (⟨2074, 1, 1, 0, 0, 0, 0⟩ : Time) ≠ ⟨2049, 1, 1, 0, 0, 0, 0⟩ := by
  decide

/-! ## The file system -/

theorem effectiveMode_750 (umask : Nat) : effectiveMode umask 0o750 &&& 0o027 = 0 := by
  unfold effectiveMode
  rw [Nat.land_comm (0o750 : Nat), Nat.land_assoc]
  have : (0o750 : Nat) &&& 0o027 = 0 := by decide
  rw [this, Nat.and_zero]

theorem mkdirAllFS_nodes (umask perm : Nat) (ps : List Path) (fs fs1 : FS)
    (h : mkdirAllFS umask perm ps fs = .ok fs1) :
    ∀ n ∈ fs1, n ∈ fs ∨ (n.isDir = true ∧ n.mode = effectiveMode umask perm) := by
  induction ps generalizing fs with
  | nil =>
    simp only [mkdirAllFS, Except.ok.injEq] at h
    subst h
    exact fun n hn => Or.inl hn
  | cons p ps ih =>
    simp only [mkdirAllFS] at h
    split at h
    · split at h
      · exact ih fs h
      · cases h
    · intro n hn
      rcases ih _ h n hn with h1 | h1
      · rcases List.mem_cons.1 h1 with rfl | h2
        · exact Or.inr ⟨rfl, rfl⟩
        · exact Or.inl h2
      · exact Or.inr h1

theorem osMkdirAll_nodes (env : Env) (p : Path) (perm : Nat) (w : World) :
    ∀ n ∈ (osMkdirAll env p perm w).2.fs,
      n ∈ w.fs ∨ (n.isDir = true ∧ n.mode = effectiveMode env.umask perm) := by
  simp only [osMkdirAll]
  split
  · exact fun n hn => Or.inl hn
  · split
    · rename_i fs1 h
      exact mkdirAllFS_nodes _ _ _ _ _ h
    · exact fun n hn => Or.inl hn

theorem osMkdir_nodes (env : Env) (p : Path) (perm : Nat) (w : World) :
    ∀ n ∈ (osMkdir env p perm w).2.fs,
      n ∈ w.fs ∨ (n.isDir = true ∧ n.mode = effectiveMode env.umask perm) := by
  simp only [osMkdir]
  split
  · exact fun n hn => Or.inl hn
  · split
    · rename_i fs1 h
      simp only [mkdirFS] at h
      split at h
      · cases h
      · split at h
        · simp only [Except.ok.injEq] at h
          subst h
          intro n hn
          rcases List.mem_cons.1 hn with rfl | h2
          · exact Or.inr ⟨rfl, rfl⟩
          · exact Or.inl h2
        · cases h
    · exact fun n hn => Or.inl hn

theorem makeKeydirsLoop_nodes (env : Env) (kp : Path) (dirs : List String) (w : World) :
    ∀ n ∈ (makeKeydirsLoop env kp dirs w).2.fs,
      n ∈ w.fs ∨ (n.isDir = true ∧ n.mode = effectiveMode env.umask 0o750) := by
  induction dirs generalizing w with
  | nil => exact fun n hn => Or.inl hn
  | cons d rest ih =>
    have h := osMkdir_nodes env (filepathJoin kp d) 0o750 w
    simp only [makeKeydirsLoop]
    rcases hm : osMkdir env (filepathJoin kp d) 0o750 w with ⟨r, w1⟩
    rw [hm] at h
    cases r with
    | some err => exact h
    | none =>
      intro n hn
      rcases ih w1 n hn with h1 | h1
      · exact h n h1
      · exact Or.inr h1

theorem makeKeydirs_nodes (env : Env) (kp : Path) (w : World) :
    ∀ n ∈ (makeKeydirs env kp w).2.fs,
      n ∈ w.fs ∨ (n.isDir = true ∧ n.mode = effectiveMode env.umask 0o750) := by
  have h := osMkdirAll_nodes env kp 0o750 w
  simp only [makeKeydirs]
  rcases hm : osMkdirAll env kp 0o750 w with ⟨r, w1⟩
  rw [hm] at h
  cases r with
  | some err => exact h
  | none =>
    intro n hn
    rcases makeKeydirsLoop_nodes env kp keyDirs w1 n hn with h1 | h1
    · exact h n h1
    · exact Or.inr h1

/-- C7, as the code has it. Every call `makeKeydirs` makes is an `os.MkdirAll`
or `os.Mkdir` with the permission bits `0750`, and every node it adds to the
file system is a directory whose mode is `0750` without the bits of the
umask: whatever the umask, it grants nothing to others and no write
permission to the group (mode AND `0o027` = 0). -/
theorem makeKeydirs_modes (env : Env) (kp : Path) (w : World) :
    (∃ evs, (makeKeydirs env kp w).2.trace = w.trace ++ evs ∧
      ∀ e ∈ evs, (∃ p, e.call = .MkdirAll p 0o750) ∨ (∃ p, e.call = .Mkdir p 0o750)) ∧
    (∀ n ∈ (makeKeydirs env kp w).2.fs, n ∈ w.fs ∨
      (n.isDir = true ∧ n.mode = effectiveMode env.umask 0o750 ∧ n.mode &&& 0o027 = 0)) := by
  constructor
  · obtain ⟨⟨evs, hrun, htrace, -⟩, -⟩ := makeKeydirs_ran env kp w
    refine ⟨evs, htrace, ?_⟩
    intro e he
    obtain ⟨f, hf, b, rfl⟩ := hrun.mem e he
    simp only [makeKeydirsScript, List.mem_cons, List.mem_map] at hf
    rcases hf with rfl | ⟨d, -, rfl⟩
    · exact Or.inl ⟨_, rfl⟩
    · exact Or.inr ⟨_, rfl⟩
  · intro n hn
    rcases makeKeydirs_nodes env kp w n hn with h | ⟨h1, h2⟩
    · exact Or.inl h
    · exact Or.inr ⟨h1, h2, by rw [h2]; exact effectiveMode_750 _⟩

/-- C7 as stated fails: in the concrete environment (umask `022`)
`makeKeydirs` asks for the mode `0750` and the directory `uefi-pk` it creates
has that mode, which grants read and execute permission to the group. -/
theorem makeKeydirs_group_access :
    (⟨.Mkdir ["keys", "prod", "uefi-pk"] 0o750, true⟩ : Event)
      ∈ (makeKeydirs demoEnv ["keys", "prod"] emptyRoot).2.trace ∧
    (⟨["keys", "prod", "uefi-pk"], true, 0o750, ""⟩ : Node)
      ∈ (makeKeydirs demoEnv ["keys", "prod"] emptyRoot).2.fs ∧
    (⟨["keys", "prod", "uefi-pk"], true, 0o750, ""⟩ : Node) ∉ emptyRoot.fs ∧
    (0o750 : Nat) &&& 0o077 = 0o050 ∧
    ¬ (∀ n ∈ (makeKeydirs demoEnv ["keys", "prod"] emptyRoot).2.fs,
        n ∈ emptyRoot.fs ∨ n.mode &&& 0o077 = 0) := by
  decide

/-! ## Directories are kept -/

theorem KeepsDirs.refl (fs : FS) : KeepsDirs fs fs := fun _ h => h

theorem KeepsDirs.trans {a b c : FS} (h1 : KeepsDirs a b) (h2 : KeepsDirs b c) :
    KeepsDirs a c := fun p h => h2 p (h1 p h)

theorem isDirectory_exists {fs : FS} {q : Path} (h : isDirectory fs q = true) :
    PathExists fs q = true := by
  unfold isDirectory at h
  unfold PathExists
  cases hs : stat fs q with
  | none => rw [hs] at h; cases h
  | some n => rfl

theorem stat_cons_ne (n : Node) (fs : FS) (q : Path) (h : n.path ≠ q) :
    stat (n :: fs) q = stat fs q := by
  unfold stat
  by_cases hq : q = []
  · simp [hq]
  · simp [hq, List.find?_cons, h]

theorem keeps_cons (n : Node) (fs : FS) (h : PathExists fs n.path = false) :
    KeepsDirs fs (n :: fs) := by
  intro q hq
  have hne : n.path ≠ q := by
    rintro rfl
    rw [isDirectory_exists hq] at h
    cases h
  unfold isDirectory at hq ⊢
  rw [stat_cons_ne n fs q hne]
  exact hq

theorem isDirectory_cons_self (n : Node) (fs : FS) (hd : n.isDir = true) :
    isDirectory (n :: fs) n.path = true := by
  unfold isDirectory stat
  by_cases hq : n.path = []
  · simp [hq]
  · simp [hq, List.find?_cons, hd]

theorem mkdirFS_ok (umask : Nat) (fs fs1 : FS) (p : Path) (perm : Nat)
    (h : mkdirFS umask fs p perm = .ok fs1) :
    KeepsDirs fs fs1 ∧ isDirectory fs1 p = true := by
  simp only [mkdirFS] at h
  split at h
  · cases h
  · rename_i hex
    split at h
    · simp only [Except.ok.injEq] at h
      subst h
      exact ⟨keeps_cons ⟨p, true, _, ""⟩ fs (by simpa using hex),
        isDirectory_cons_self ⟨p, true, _, ""⟩ fs rfl⟩
    · cases h

theorem mkdirAllFS_ok (umask perm : Nat) (ps : List Path) (fs fs1 : FS)
    (h : mkdirAllFS umask perm ps fs = .ok fs1) :
    KeepsDirs fs fs1 ∧ ∀ q ∈ ps, isDirectory fs1 q = true := by
  induction ps generalizing fs with
  | nil =>
    simp only [mkdirAllFS, Except.ok.injEq] at h
    subst h
    exact ⟨KeepsDirs.refl _, by simp⟩
  | cons p ps ih =>
    simp only [mkdirAllFS] at h
    split at h
    · rename_i n hs
      split at h
      · rename_i hd
        obtain ⟨h1, h2⟩ := ih fs h
        refine ⟨h1, ?_⟩
        intro q hq
        rcases List.mem_cons.1 hq with rfl | hq
        · apply h1
          unfold isDirectory
          rw [hs]
          exact hd
        · exact h2 q hq
      · cases h
    · rename_i hs
      obtain ⟨h1, h2⟩ := ih _ h
      have hk : KeepsDirs fs (⟨p, true, effectiveMode umask perm, ""⟩ :: fs) :=
        keeps_cons ⟨p, true, _, ""⟩ fs (by simp [PathExists, hs])
      refine ⟨hk.trans h1, ?_⟩
      intro q hq
      rcases List.mem_cons.1 hq with rfl | hq
      · exact h1 _ (isDirectory_cons_self ⟨q, true, _, ""⟩ fs rfl)
      · exact h2 q hq

theorem find?_filter_ne (fs : FS) (p q : Path) (h : q ≠ p) :
    List.find? (fun n => decide (n.path = q)) (fs.filter (fun m => decide (m.path ≠ p)))
      = List.find? (fun n => decide (n.path = q)) fs := by
  induction fs with
  | nil => rfl
  | cons a fs ih =>
    rw [List.filter_cons]
    by_cases ha : a.path = p
    · have hq : a.path ≠ q := by rw [ha]; exact fun h1 => h h1.symm
      rw [if_neg (by simpa using ha), List.find?_cons_of_neg _ (by simpa using hq)]
      exact ih
    · rw [if_pos (by simpa using ha)]
      by_cases haq : a.path = q
      · rw [List.find?_cons_of_pos _ (by simpa using haq),
          List.find?_cons_of_pos _ (by simpa using haq)]
      · rw [List.find?_cons_of_neg _ (by simpa using haq),
          List.find?_cons_of_neg _ (by simpa using haq)]
        exact ih

theorem writeFileFS_ok (umask : Nat) (fs fs1 : FS) (p : Path) (data : String) (perm : Nat)
    (h : writeFileFS umask fs p data perm = .ok fs1) : KeepsDirs fs fs1 := by
  simp only [writeFileFS] at h
  split at h
  · rename_i n hs
    split at h
    · cases h
    · rename_i hd
      simp only [Except.ok.injEq] at h
      subst h
      intro q hq
      have hne : q ≠ p := by
        rintro rfl
        unfold isDirectory at hq
        rw [hs] at hq
        exact hd hq
      have hq0 : q ≠ [] ∨ q = [] := by
        by_cases h0 : q = []
        · exact Or.inr h0
        · exact Or.inl h0
      rcases hq0 with hq0 | hq0
      · unfold isDirectory at hq ⊢
        rw [stat_cons_ne _ _ q (fun h1 => hne h1.symm)]
        unfold stat at hq ⊢
        simp only [hq0, if_false] at hq ⊢
        rw [find?_filter_ne fs p q hne]
        exact hq
      · subst hq0
        simp [isDirectory, stat]
  · rename_i hs
    split at h
    · simp only [Except.ok.injEq] at h
      subst h
      exact keeps_cons ⟨p, false, _, data⟩ fs (by simp [PathExists, hs])
    · cases h

theorem mem_parentsAndSelf (p q : Path) (hq : q ≠ []) (h : q <+: p) : q ∈ parentsAndSelf p := by
  unfold parentsAndSelf
  cases p with
  | nil => exact absurd (List.prefix_nil.1 h) hq
  | cons a l =>
    cases q with
    | nil => exact absurd rfl hq
    | cons b q1 =>
      obtain ⟨rfl, h1⟩ := List.cons_prefix_cons.1 h
      simp only [List.inits, List.tail_cons, List.mem_map]
      exact ⟨q1, (List.mem_inits _ _).2 h1, rfl⟩

theorem osMkdirAll_keeps (env : Env) (p : Path) (perm : Nat) (w : World) :
    KeepsDirs w.fs (osMkdirAll env p perm w).2.fs ∧
    ((osMkdirAll env p perm w).1 = none →
      ∀ q, q <+: p → isDirectory (osMkdirAll env p perm w).2.fs q = true) := by
  simp only [osMkdirAll]
  split
  · exact ⟨KeepsDirs.refl _, fun h => by cases h⟩
  · split
    · rename_i fs1 h
      obtain ⟨h1, h2⟩ := mkdirAllFS_ok _ _ _ _ _ h
      refine ⟨h1, fun _ q hq => ?_⟩
      by_cases hq0 : q = []
      · subst hq0
        simp [isDirectory, stat]
      · exact h2 q (mem_parentsAndSelf p q hq0 hq)
    · exact ⟨KeepsDirs.refl _, fun h => by cases h⟩

theorem EnsureDir_keeps (env : Env) (p : Path) (w : World) :
    KeepsDirs w.fs (EnsureDir env p w).2.fs ∧
    ((EnsureDir env p w).1 = none → isDirectory (EnsureDir env p w).2.fs p = true) := by
  simp only [EnsureDir]
  split
  · exact ⟨KeepsDirs.refl _, fun h => by cases h⟩
  · split
    · rename_i fs1 h
      obtain ⟨h1, h2⟩ := mkdirAllFS_ok _ _ _ _ _ h
      refine ⟨h1, fun _ => ?_⟩
      by_cases hq0 : p = []
      · subst hq0
        simp [isDirectory, stat]
      · exact h2 p (mem_parentsAndSelf p p hq0 (List.prefix_refl p))
    · exact ⟨KeepsDirs.refl _, fun h => by cases h⟩

theorem osMkdir_keeps (env : Env) (p : Path) (perm : Nat) (w : World) :
    KeepsDirs w.fs (osMkdir env p perm w).2.fs ∧
    ((osMkdir env p perm w).1 = none → isDirectory (osMkdir env p perm w).2.fs p = true) := by
  simp only [osMkdir]
  split
  · exact ⟨KeepsDirs.refl _, fun h => by cases h⟩
  · split
    · rename_i fs1 h
      obtain ⟨h1, h2⟩ := mkdirFS_ok _ _ _ _ _ h
      exact ⟨h1, fun _ => h2⟩
    · exact ⟨KeepsDirs.refl _, fun h => by cases h⟩

theorem osWriteFile_keeps (env : Env) (p : Path) (data : String) (perm : Nat) (w : World) :
    KeepsDirs w.fs (osWriteFile env p data perm w).2.fs := by
  simp only [osWriteFile]
  split
  · exact KeepsDirs.refl _
  · split
    · rename_i fs1 h
      exact writeFileFS_ok _ _ _ _ _ _ h
    · exact KeepsDirs.refl _

theorem makeKeydirsLoop_keeps (env : Env) (kp : Path) (dirs : List String) (w : World) :
    KeepsDirs w.fs (makeKeydirsLoop env kp dirs w).2.fs ∧
    ((makeKeydirsLoop env kp dirs w).1 = none →
      ∀ d ∈ dirs, isDirectory (makeKeydirsLoop env kp dirs w).2.fs (filepathJoin kp d) = true) := by
  induction dirs generalizing w with
  | nil => exact ⟨KeepsDirs.refl _, by simp⟩
  | cons d rest ih =>
    have h := osMkdir_keeps env (filepathJoin kp d) 0o750 w
    simp only [makeKeydirsLoop]
    rcases hm : osMkdir env (filepathJoin kp d) 0o750 w with ⟨r, w1⟩
    rw [hm] at h
    cases r with
    | some err => exact ⟨h.1, fun h1 => by cases h1⟩
    | none =>
      obtain ⟨h1, h2⟩ := ih w1
      refine ⟨h.1.trans h1, fun hok x hx => ?_⟩
      rcases List.mem_cons.1 hx with rfl | hx
      · exact h1 _ (h.2 rfl)
      · exact h2 hok x hx

theorem makeKeydirs_keeps (env : Env) (kp : Path) (w : World) :
    KeepsDirs w.fs (makeKeydirs env kp w).2.fs ∧
    ((makeKeydirs env kp w).1 = none →
      (∀ q, q <+: kp → isDirectory (makeKeydirs env kp w).2.fs q = true) ∧
      ∀ d ∈ keyDirs, isDirectory (makeKeydirs env kp w).2.fs (filepathJoin kp d) = true) := by
  have h := osMkdirAll_keeps env kp 0o750 w
  simp only [makeKeydirs]
  rcases hm : osMkdirAll env kp 0o750 w with ⟨r, w1⟩
  rw [hm] at h
  cases r with
  | some err => exact ⟨h.1, fun h1 => by cases h1⟩
  | none =>
    obtain ⟨h1, h2⟩ := makeKeydirsLoop_keeps env kp keyDirs w1
    exact ⟨h.1.trans h1, fun hok => ⟨fun q hq => h1 _ (h.2 rfl q hq), h2 hok⟩⟩

theorem generateMosCredsLoop_keeps (env : Env) (hg : env.KeepsDirectories) (kp : Path)
    (order : List (String × AddCertInfo)) (t : Certificate) (w : World) :
    KeepsDirs w.fs (generateMosCredsLoop env kp order t w).2.2.fs := by
  induction order generalizing t w with
  | nil => exact KeepsDirs.refl _
  | cons e rest ih =>
    obtain ⟨key, info⟩ := e
    simp only [generateMosCredsLoop]
    have h : KeepsDirs w.fs (generateCreds env (filepathJoin kp key) info.doguid
        { t with CommonName := info.cn } w).2.fs := hg.generateCreds _ _ _ _
    rcases hm : generateCreds env (filepathJoin kp key) info.doguid
      { t with CommonName := info.cn } w with ⟨r, w1⟩
    rw [hm] at h
    cases r with
    | some err => exact h
    | none => exact h.trans (ih _ w1)

theorem generaterootCA_keeps (env : Env) (hg : env.KeepsDirectories) (d : Path)
    (t : Certificate) (g : Bool) (w : World) :
    KeepsDirs w.fs (generaterootCA env d t g w).2.fs :=
  hg.generaterootCA _ _ _ _

theorem SignCert_keeps (env : Env) (hg : env.KeepsDirectories) (t : Certificate) (c : CACert)
    (k : PrivKey) (d : Path) (w : World) :
    KeepsDirs w.fs (SignCert env t c k d w).2.fs :=
  hg.SignCert _ _ _ _ _

theorem generateNewUUIDCreds_keeps (env : Env) (hg : env.KeepsDirectories) (n : String)
    (d : Path) (w : World) :
    KeepsDirs w.fs (generateNewUUIDCreds env n d w).2.fs :=
  hg.generateNewUUIDCreds _ _ _

theorem generatebootkit_keeps (env : Env) (hg : env.KeepsDirectories) (n : String) (kp : Path)
    (prod : String) (w : World) :
    KeepsDirs w.fs (generatebootkit env n kp prod w).2.fs := by
  have h := hg.RunCommandWithOutputErrorRc w ["keysetbootkit.sh", n, pathString kp, prod]
  simp only [generatebootkit, RunCommandWithOutputErrorRc]
  split <;> exact h

theorem getCA_fs (env : Env) (role n : String) (w : World) :
    (getCA env role n w).2.fs = w.fs := by
  simp only [getCA]
  split <;> rfl

theorem initkeysetRootCAs_keeps (env : Env) (hg : env.KeepsDirectories) (name : String)
    (org : List String) (kp : Path) (w : World) :
    KeepsDirs w.fs (initkeysetRootCAs env name org kp w).2.fs := by
  simp only [initkeysetRootCAs, timeNow]
  generalize hw1 : ({ w with clk := w.clk + 1 + 1 } : World) = w1
  have e1 : w1.fs = w.fs := by rw [← hw1]
  rw [← e1]
  rcases hm1 : generaterootCA env (filepathJoin kp "manifest-ca") _ false w1 with ⟨r1, w2⟩
  have h1 : KeepsDirs w1.fs w2.fs := by
    have hfs2 := congrArg (fun x => x.2.fs) hm1
    simp only at hfs2
    rw [← hfs2]
    exact generaterootCA_keeps env hg _ _ _ w1
  cases r1 with
  | some err => exact h1
  | none =>
    simp only
    rcases hm2 : generaterootCA env (filepathJoin kp "sudi-ca") _ false w2 with ⟨r2, w3⟩
    have h2 : KeepsDirs w2.fs w3.fs := by
      have hfs2 := congrArg (fun x => x.2.fs) hm2
      simp only at hfs2
      rw [← hfs2]
      exact generaterootCA_keeps env hg _ _ _ w2
    cases r2 with
    | some err => exact h1.trans h2
    | none =>
      simp only
      generalize hw4 : ({ w3 with clk := w3.clk + 1 } : World) = w4
      have e4 : w4.fs = w3.fs := by rw [← hw4]
      rcases hm3 : generaterootCA env (filepathJoin kp "uefi-pk") _ true w4 with ⟨r3, w5⟩
      have h3 : KeepsDirs w4.fs w5.fs := by
        have hfs2 := congrArg (fun x => x.2.fs) hm3
        simp only at hfs2
        rw [← hfs2]
        exact generaterootCA_keeps env hg _ _ _ w4
      rw [e4] at h3
      cases r3 with
      | some err => exact h1.trans (h2.trans h3)
      | none => exact h1.trans (h2.trans h3)

theorem initkeysetMosCreds_keeps (env : Env) (hg : env.KeepsDirectories) (name : String)
    (org : List String) (kp : Path) (w : World) :
    KeepsDirs w.fs (initkeysetMosCreds env name org kp w).2.2.fs := by
  simp only [initkeysetMosCreds, timeNow, generateMosCreds]
  generalize hw1 : ({ w with clk := w.clk + 1 + 1 } : World) = w1
  have e1 : w1.fs = w.fs := by rw [← hw1]
  rw [← e1]
  rcases hm : generateMosCredsLoop env kp env.rangeOrder _ w1 with ⟨r, t, w2⟩
  have h : KeepsDirs w1.fs w2.fs := by
    have hfs2 := congrArg (fun x => x.2.2.fs) hm
    simp only at hfs2
    rw [← hfs2]
    exact generateMosCredsLoop_keeps env hg kp env.rangeOrder _ w1
  cases r with
  | some err => exact h
  | none => exact h

theorem initkeysetKEK_keeps (env : Env) (hg : env.KeepsDirectories) (name : String)
    (kp : Path) (t : Certificate) (w : World) :
    KeepsDirs w.fs (initkeysetKEK env name kp t w).2.fs := by
  have hfs := getCA_fs env "uefi-pk" name w
  simp only [initkeysetKEK, timeNow]
  rcases hm : getCA env "uefi-pk" name w with ⟨r, w1⟩
  rw [hm] at hfs
  simp only at hfs
  rw [← hfs]
  cases r with
  | error err => exact KeepsDirs.refl _
  | ok ck =>
    obtain ⟨c, k⟩ := ck
    simp only
    generalize hw2 : ({ w1 with clk := w1.clk + 1 } : World) = w2
    have e2 : w2.fs = w1.fs := by rw [← hw2]
    rw [← e2]
    rcases hm2 : SignCert env _ c k (filepathJoin kp "uefi-kek") w2 with ⟨r2, w3⟩
    have h2 : KeepsDirs w2.fs w3.fs := by
      have hfs2 := congrArg (fun x => x.2.fs) hm2
      simp only at hfs2
      rw [← hfs2]
      exact SignCert_keeps env hg _ c k _ w2
    cases r2 with
    | some err => exact h2
    | none =>
      simp only
      have h3 := osWriteFile_keeps env (filepathJoin (filepathJoin kp "uefi-kek") "guid")
        (env.NewString w3.trace.length) 0o640 w3
      rcases hm3 : osWriteFile env (filepathJoin (filepathJoin kp "uefi-kek") "guid")
        (env.NewString w3.trace.length) 0o640 w3 with ⟨r3, w4⟩
      rw [hm3] at h3
      cases r3 with
      | some err => exact h2.trans h3
      | none => exact h2.trans h3

theorem initkeysetProject_keeps (env : Env) (hg : env.KeepsDirectories) (name : String)
    (kp : Path) (w : World) :
    KeepsDirs w.fs (initkeysetProject env name kp w).2.fs ∧
    ((initkeysetProject env name kp w).1.err = none →
      isDirectory (initkeysetProject env name kp w).2.fs
        (filepathJoin (filepathJoin kp "manifest") "default") = true ∧
      isDirectory (initkeysetProject env name kp w).2.fs
        (filepathJoin (filepathJoin (filepathJoin kp "manifest") "default") "sudi") = true) := by
  simp only [initkeysetProject]
  have h1 := EnsureDir_keeps env (filepathJoin (filepathJoin kp "manifest") "default") w
  rcases hm1 : EnsureDir env (filepathJoin (filepathJoin kp "manifest") "default") w
    with ⟨r1, w1⟩
  rw [hm1] at h1
  cases r1 with
  | some err => exact ⟨h1.1, fun h => by cases h⟩
  | none =>
    simp only
    have h2 := EnsureDir_keeps env
      (filepathJoin (filepathJoin (filepathJoin kp "manifest") "default") "sudi") w1
    rcases hm2 : EnsureDir env
      (filepathJoin (filepathJoin (filepathJoin kp "manifest") "default") "sudi") w1
      with ⟨r2, w2⟩
    rw [hm2] at h2
    cases r2 with
    | some err => exact ⟨h1.1.trans h2.1, fun h => by cases h⟩
    | none =>
      simp only
      have h3 := generateNewUUIDCreds_keeps env hg name
        (filepathJoin (filepathJoin kp "manifest") "default") w2
      rcases hm3 : generateNewUUIDCreds env name
        (filepathJoin (filepathJoin kp "manifest") "default") w2 with ⟨r3, w3⟩
      rw [hm3] at h3
      cases r3 with
      | some err => exact ⟨h1.1.trans (h2.1.trans h3), fun h => by cases h⟩
      | none =>
        simp only
        have h4 := generatebootkit_keeps env hg name kp "default" w3
        rcases hm4 : generatebootkit env name kp "default" w3 with ⟨r4, w4⟩
        rw [hm4] at h4
        cases r4 with
        | some err => exact ⟨h1.1.trans (h2.1.trans (h3.trans h4)), fun h => by cases h⟩
        | none =>
          refine ⟨h1.1.trans (h2.1.trans (h3.trans h4)), fun _ => ⟨?_, ?_⟩⟩
          · exact h4 _ (h3 _ (h2.1 _ (h1.2 rfl)))
          · exact h4 _ (h3 _ (h2.2 rfl))

theorem initkeysetBody_dirs (env : Env) (hg : env.KeepsDirectories) (name : String)
    (org : List String) (kp : Path) (w : World)
    (hok : (initkeysetBody env name org kp w).1.err = none) :
    (∀ q, q <+: kp → isDirectory (initkeysetBody env name org kp w).2.fs q = true) ∧
    (∀ d ∈ keyDirs,
      isDirectory (initkeysetBody env name org kp w).2.fs (filepathJoin kp d) = true) ∧
    isDirectory (initkeysetBody env name org kp w).2.fs
      (filepathJoin (filepathJoin kp "manifest") "default") = true ∧
    isDirectory (initkeysetBody env name org kp w).2.fs
      (filepathJoin (filepathJoin (filepathJoin kp "manifest") "default") "sudi") = true := by
  simp only [initkeysetBody] at hok ⊢
  have h1 := makeKeydirs_keeps env kp w
  rcases hm1 : makeKeydirs env kp w with ⟨r1, w1⟩
  rw [hm1] at h1 hok
  cases r1 with
  | some err => simp at hok
  | none =>
    simp only at hok ⊢
    obtain ⟨ha, hb⟩ := h1.2 rfl
    have h2 := initkeysetRootCAs_keeps env hg name org kp w1
    rcases hm2 : initkeysetRootCAs env name org kp w1 with ⟨⟨ret2, err2⟩, w2⟩
    rw [hm2] at h2 hok
    cases err2 with
    | some err => simp at hok
    | none =>
      simp only at hok ⊢
      have h3 := initkeysetMosCreds_keeps env hg name org kp w2
      rcases hm3 : initkeysetMosCreds env name org kp w2 with ⟨⟨ret3, err3⟩, t3, w3⟩
      rw [hm3] at h3 hok
      cases err3 with
      | some err => simp at hok
      | none =>
        simp only at hok ⊢
        have h4 := initkeysetKEK_keeps env hg name kp t3 w3
        rcases hm4 : initkeysetKEK env name kp t3 w3 with ⟨⟨ret4, err4⟩, w4⟩
        rw [hm4] at h4 hok
        cases err4 with
        | some err => simp at hok
        | none =>
          simp only at hok ⊢
          obtain ⟨h5, h6⟩ := initkeysetProject_keeps env hg name kp w4
          have hk : KeepsDirs w1.fs (initkeysetProject env name kp w4).2.fs :=
            h2.trans (h3.trans (h4.trans h5))
          exact ⟨fun q hq => hk _ (ha q hq), fun d hd => hk _ (hb d hd), h6 hok⟩

theorem initkeyset_dirs (env : Env) (hg : env.KeepsDirectories) (name : String)
    (org : List String) (w : World) (root : Path) (hname : name ≠ "")
    (hroot : env.getMosKeyPath = .ok root)
    (hex : PathExists w.fs (filepathJoin root name) = false)
    (hok : (initkeyset env name org w).1 = none) :
    (∀ q, q <+: filepathJoin root name →
      isDirectory (initkeyset env name org w).2.fs q = true) ∧
    (∀ d ∈ keyDirs, isDirectory (initkeyset env name org w).2.fs
      (filepathJoin (filepathJoin root name) d) = true) ∧
    isDirectory (initkeyset env name org w).2.fs
      (filepathJoin (filepathJoin (filepathJoin root name) "manifest") "default") = true ∧
    isDirectory (initkeyset env name org w).2.fs
      (filepathJoin (filepathJoin (filepathJoin (filepathJoin root name) "manifest") "default")
        "sudi") = true := by
  simp only [initkeyset, hname, if_false, hroot, hex, Bool.false_eq_true] at hok ⊢
  generalize (osMkdirAll env (filepathJoin root name) 0o750 w).2 = w1 at hok ⊢
  have hd := initkeysetBody_dirs env hg name org (filepathJoin root name) w1
  obtain ⟨ck, guid, -, hcoh⟩ := initkeysetBody_ran env name org (filepathJoin root name) w1
  rcases hb : initkeysetBody env name org (filepathJoin root name) w1 with ⟨⟨ret, err⟩, w2⟩
  rw [hb] at hok hd hcoh
  cases err with
  | some e =>
    simp only at hok
    subst hok
    simp at hcoh
  | none => exact hd rfl

/-! ## A successful `initkeyset` -/

theorem splitSlash_component (cs : List Char) (h : '/' ∉ cs) : splitSlash cs = [cs] := by
  induction cs with
  | nil => rfl
  | cons c cs ih =>
    have hc : c ≠ '/' := fun hc => h (by simp [hc])
    have hcs : '/' ∉ cs := fun hcs => h (List.mem_cons_of_mem _ hcs)
    simp [splitSlash, ih hcs, hc]

theorem filepathJoin_component (root : Path) (name : String) (h : IsComponent name) :
    filepathJoin root name = root ++ [name] := by
  obtain ⟨h1, h2, h3, h4⟩ := h
  simp only [filepathJoin, splitSlash_component _ h4, List.map_cons, List.map_nil,
    List.foldl_cons, List.foldl_nil]
  show cleanStep root name = root ++ [name]
  simp [cleanStep, h1, h2, h3]

theorem count_entryNames (fs : FS) (root : Path) (name : String)
    (h : isDirectory fs (root ++ [name]) = true) : (entryNames fs root).count name = 1 := by
  unfold entryNames
  rw [(List.perm_insertionSort _ _).count_eq, List.count_dedup]
  have hmem : name ∈ fs.filterMap (fun n =>
      if n.path ≠ [] ∧ n.path.dropLast = root then n.path.getLast? else none) := by
    unfold isDirectory stat at h
    simp only [List.append_eq_nil, List.cons_ne_self, and_false, if_false] at h
    cases hf : List.find? (fun n => decide (n.path = root ++ [name])) fs with
    | none => rw [hf] at h; cases h
    | some n =>
      have hn := List.mem_of_find?_eq_some hf
      have hp := List.find?_some hf
      simp only [decide_eq_true_eq] at hp
      rw [List.mem_filterMap]
      refine ⟨n, hn, ?_⟩
      simp [hp]
  simp [hmem]

/-- C6, as the code has it. When `initkeyset` returns nil for a non-empty name
not yet present, and the collaborators have not removed directories, the
keyset directory exists and has a directory for every role, and the default
project directory `manifest/default` and its identity slot
`manifest/default/sudi` exist. When the name is moreover a single path
component, a listing of the root that can read the directory succeeds and
prints that name exactly once. -/
theorem initkeyset_success (env : Env) (hg : env.KeepsDirectories) (name : String)
    (org : List String) (w : World) (root : Path) (hname : name ≠ "")
    (hroot : env.getMosKeyPath = .ok root)
    (hex : PathExists w.fs (filepathJoin root name) = false)
    (hok : (initkeyset env name org w).1 = none) :
    isDirectory (initkeyset env name org w).2.fs (filepathJoin root name) = true ∧
    (∀ role ∈ ["manifest-ca", "manifest", "sudi-ca", "tpmpol-admin", "tpmpol-luks", "uefi-db",
        "uki-limited", "uki-production", "uki-tpm", "uefi-pk", "uefi-kek"],
      isDirectory (initkeyset env name org w).2.fs
        (filepathJoin (filepathJoin root name) role) = true) ∧
    isDirectory (initkeyset env name org w).2.fs
      (filepathJoin (filepathJoin (filepathJoin root name) "manifest") "default") = true ∧
    isDirectory (initkeyset env name org w).2.fs
      (filepathJoin (filepathJoin (filepathJoin (filepathJoin root name) "manifest") "default")
        "sudi") = true ∧
    (IsComponent name → env.fault (initkeyset env name org w).2.trace.length = false →
      ∃ names, (osReadDir env root (initkeyset env name org w).2).1 = (names, none) ∧
        names.count name = 1 ∧
        (doListKeysets env [] (initkeyset env name org w).2).1 = none ∧
        (doListKeysets env [] (initkeyset env name org w).2).2.out
          = (initkeyset env name org w).2.out ++ names.map (fun n => n ++ "\n")) := by
  obtain ⟨h1, h2, h3, h4⟩ := initkeyset_dirs env hg name org w root hname hroot hex hok
  refine ⟨h1 _ (List.prefix_refl _), h2, h3, h4, ?_⟩
  intro hcomp hfault
  have hkp := filepathJoin_component root name hcomp
  have hrootdir : isDirectory (initkeyset env name org w).2.fs root = true :=
    h1 root (by rw [hkp]; exact List.prefix_append _ _)
  have hkpdir : isDirectory (initkeyset env name org w).2.fs (root ++ [name]) = true := by
    rw [← hkp]
    exact h1 _ (List.prefix_refl _)
  have hrd : (osReadDir env root (initkeyset env name org w).2).1
      = (entryNames (initkeyset env name org w).2.fs root, none) := by
    simp [osReadDir, hfault, readDirFS, hrootdir]
  refine ⟨_, hrd, count_entryNames _ _ _ hkpdir, ?_⟩
  have hout := osReadDir_out env root (initkeyset env name org w).2
  simp only [doListKeysets, hroot]
  rcases hr : osReadDir env root (initkeyset env name org w).2 with ⟨⟨ns, e⟩, w2⟩
  rw [hr] at hrd hout
  simp only [Prod.mk.injEq] at hrd
  obtain ⟨rfl, rfl⟩ := hrd
  simp only at hout
  simp [foldl_Printf_out, hout]

theorem writeOrFail_keeps (w : World) (p : Path) (data : String) :
    KeepsDirs w.fs (writeOrFail w p data).2 := by
  unfold writeOrFail
  split
  · rename_i fs1 h
    exact writeFileFS_ok _ _ _ _ _ _ h
  · exact KeepsDirs.refl _

theorem demoEnv_keepsDirectories : demoEnv.KeepsDirectories where
  generaterootCA := fun w _ _ _ => writeOrFail_keeps w _ _
  generateCreds := fun w _ _ _ => writeOrFail_keeps w _ _
  SignCert := fun w _ _ _ _ => writeOrFail_keeps w _ _
  generateNewUUIDCreds := fun w _ _ => writeOrFail_keeps w _ _
  RunCommandWithOutputErrorRc := fun _ _ => KeepsDirs.refl _

theorem initkeyset_success_witness :
    demoEnv.KeepsDirectories ∧ "prod" ≠ "" ∧ demoEnv.getMosKeyPath = .ok ["keys"] ∧
    PathExists emptyRoot.fs (filepathJoin ["keys"] "prod") = false ∧
    (initkeyset demoEnv "prod" ["ACME"] emptyRoot).1 = none ∧
    (isDirectory (initkeyset demoEnv "prod" ["ACME"] emptyRoot).2.fs
        (filepathJoin ["keys"] "prod") = true ∧
      (∀ role ∈ ["manifest-ca", "manifest", "sudi-ca", "tpmpol-admin", "tpmpol-luks",
          "uefi-db", "uki-limited", "uki-production", "uki-tpm", "uefi-pk", "uefi-kek"],
        isDirectory (initkeyset demoEnv "prod" ["ACME"] emptyRoot).2.fs
          (filepathJoin (filepathJoin ["keys"] "prod") role) = true) ∧
      isDirectory (initkeyset demoEnv "prod" ["ACME"] emptyRoot).2.fs
        (filepathJoin (filepathJoin (filepathJoin ["keys"] "prod") "manifest") "default")
          = true ∧
      isDirectory (initkeyset demoEnv "prod" ["ACME"] emptyRoot).2.fs
        (filepathJoin (filepathJoin (filepathJoin (filepathJoin ["keys"] "prod") "manifest")
          "default") "sudi") = true ∧
      (IsComponent "prod" →
        demoEnv.fault (initkeyset demoEnv "prod" ["ACME"] emptyRoot).2.trace.length = false →
        ∃ names,
          (osReadDir demoEnv ["keys"] (initkeyset demoEnv "prod" ["ACME"] emptyRoot).2).1
            = (names, none) ∧
          names.count "prod" = 1 ∧
          (doListKeysets demoEnv [] (initkeyset demoEnv "prod" ["ACME"] emptyRoot).2).1 = none ∧
          (doListKeysets demoEnv [] (initkeyset demoEnv "prod" ["ACME"] emptyRoot).2).2.out
            = (initkeyset demoEnv "prod" ["ACME"] emptyRoot).2.out
              ++ names.map (fun n => n ++ "\n"))) :=
  ⟨demoEnv_keepsDirectories, by decide, rfl, by decide, by decide,
    initkeyset_success demoEnv demoEnv_keepsDirectories "prod" ["ACME"] emptyRoot ["keys"]
      (by decide) rfl (by decide) (by decide)⟩

/-- In the concrete environment the listing after `initkeyset "prod"` prints
`prod` and nothing else. -/
theorem listing_after_initkeyset :
    IsComponent "prod" ∧
    (doListKeysets demoEnv [] (initkeyset demoEnv "prod" ["ACME"] emptyRoot).2).2.out
      = ["prod\n"] := by
  refine ⟨⟨by decide, by decide, by decide, by decide⟩, by decide⟩

/-- C6 as stated fails for a name with a `/`: `a/b` is not empty and not
present, `initkeyset` returns nil and creates `/keys/a/b`, and the listing of
the root prints `a`, not `a/b`. -/
theorem listing_misses_nested_name :
    "a/b" ≠ "" ∧
    PathExists emptyRoot.fs (filepathJoin ["keys"] "a/b") = false ∧
    (initkeyset demoEnv "a/b" ["ACME"] emptyRoot).1 = none ∧
    isDirectory (initkeyset demoEnv "a/b" ["ACME"] emptyRoot).2.fs ["keys", "a", "b"] = true ∧
    (doListKeysets demoEnv [] (initkeyset demoEnv "a/b" ["ACME"] emptyRoot).2).1 = none ∧
    (doListKeysets demoEnv [] (initkeyset demoEnv "a/b" ["ACME"] emptyRoot).2).2.out
      = ["a\n"] ∧
    (doListKeysets demoEnv [] (initkeyset demoEnv "a/b" ["ACME"] emptyRoot).2).2.out.count
      "a/b\n" = 0 := by
  decide

end Trust
